import Mathlib

/-! # srclang command-line front end

A shallow embedding of `src/srclang.cxx`: the flag loop of `main`, the mode
dispatch, `compile`, `run`, `interactive` and `printHelp`.

The runtime (`Language`) and the `ProjectManager` are declared in headers that
are not part of the sources at hand.  Every call made on them and every write
to `std::cout` / `std::cerr` is recorded, in program order, in an event log;
what they return is supplied by a `World`, whose answers may depend on the
whole log written so far (they are stateful objects).
-/

namespace Srclang

/-! ## Data model -/

/-- The banner `LOGO` (the raw string literal at the top of the file). -/
def LOGO : String :=
  "\n                       .__                         \n  _____________   ____ |  | _____    ____    ____  \n /  ___/\\_  __ \\_/ ___\\|  | \\__  \\  /    \\  / ___\\\n \\___ \\  |  | \\/\\  \\___|  |__/ __ \\|   |  \\/ /_/  >\n/____  > |__|    \\___  >____(____  /___|  /\\___  /\n     \\/              \\/          \\/     \\//_____/\n\n"

/-- Modelled from the spec: the type tag of a runtime value (`ValueType`, declared in
the absent `Language.hxx`); the front end only asks whether it is `Error`. -/
inductive ValueType
  | Error
  | Other
deriving DecidableEq, Repr

/-- Modelled from the spec: a tagged value returned by the runtime, as seen through
`SRCLANG_VALUE_GET_TYPE`, `SRCLANG_VALUE_AS_OBJECT(..)->pointer` and
`SRCLANG_VALUE_GET_STRING` (macros of the absent `Language.hxx`). -/
structure ResultValue where
  type : ValueType
  pointer : String
  text : String
deriving DecidableEq, Repr

/-- Modelled from the spec: the values `main` builds with `SRCLANG_VALUE_TRUE`,
`SRCLANG_VALUE_STRING` and `SRCLANG_VALUE_LIST` (macros of the absent `Language.hxx`).
The only list built is `args`, whose items are all string values; it is kept as the
list of those strings. -/
inductive Value
  | TRUE
  | STRING (s : String)
  | LIST (items : List String)
deriving DecidableEq, Repr

/-- One observable action of the front end, in program order. -/
inductive Event
  | cout (text : String)
  | cerr (text : String)
  | getline (line : Option String)
  | setOption (key : String)
  | define (key : String) (value : Value)
  | appendSearchPath (path : String)
  | compile (path : String) (output : Option String)
  | execute (path : String)
  | executeString (input : String) (label : String)
  | ProjectManager (project_path : String)
  | create (name : String)
  | test
deriving DecidableEq, Repr

/-- Modelled from the spec: the collaborators of the front end (`Language`,
`ProjectManager`, the working directory and standard input).  Each operation is given
the log of everything that happened before the call.  `create` and `test` answer
`some msg` when they throw a `std::exception` whose `what()` is `msg`. -/
structure World where
  current_path : String
  compile : List Event → String → Option String → Int
  execute : List Event → String → ResultValue
  executeString : List Event → String → String → ResultValue
  create : List Event → String → Option String
  test : List Event → Option String
  stdin : List String

/-- The local variables of `main` that the flag loop writes, and the event log. -/
structure State where
  filename : Option String
  output : Option String
  project_path : String
  args : List String
  log : List Event
deriving DecidableEq, Repr

/-- Where control is while `main` scans its arguments. -/
inductive Config
  | running (i : Nat) (st : State)
  | done (st : State)
  | returned (code : Int) (log : List Event)
  | fault
deriving DecidableEq, Repr

/-! ## C string helpers -/

/-- The character `s[0]` of a C string (the terminating NUL when `s` is empty). -/
def front (s : String) : Char := s.data.headD (Char.ofNat 0)

/-- The C string after `s++`, for a non-empty `s`. -/
def advance (s : String) : String := ⟨s.data.tail⟩

/-- The position `std::string::find_first_of(c)` returns, `none` for `npos`. -/
def find_first_of (s : String) (c : Char) : Option Nat :=
  if c ∈ s.data then some (s.data.indexOf c) else none

/-- The string `std::string::substr(pos, n)`. -/
def substr (s : String) (pos n : Nat) : String := ⟨(s.data.drop pos).take n⟩

/-- The string `std::string::substr(pos)`. -/
def substrFrom (s : String) (pos : Nat) : String := ⟨s.data.drop pos⟩

/-! ## The flag loop of `main` -/

/-- The text `CHECK_COUNT(c)` prints when it fails. -/
def expecting (c : Nat) : String := "expecting " ++ toString c ++ " arguments\n"

/-- The text printed for an unknown flag (`name` is `argv[i]` after `argv[i]++`). -/
def invalidFlag (name : String) : String := "ERROR: invalid flag \x27-" ++ name ++ "\x27\n"

/-- Write one event at the end of the log. -/
def State.emit (st : State) (e : Event) : State := { st with log := st.log ++ [e] }

/-- One pass through the body of `for (int i = 2; i < argc; i++)`, entered with
`i < argc`, followed by the `i++` of the loop header. -/
def body (argv : List String) (i : Nat) (st : State) : Config :=
  match argv[i]? with
  | none => .fault
  | some tok =>
    if st.filename = none ∧ front tok = '-' then
      let name := advance tok
      if name = "debug" then
        .running (i + 1) (st.emit (.setOption "DEBUG"))
      else if name = "breakpoint" then
        .running (i + 1) (st.emit (.setOption "BREAK"))
      else if name = "define" then
        if argv.length ≤ 1 + i then .returned 1 (st.log ++ [.cout (expecting 1)])
        else match argv[i + 1]? with
          | none => .fault
          | some value =>
            match find_first_of value '=' with
            | none => .running (i + 2) (st.emit (.define value .TRUE))
            | some idx =>
              let key := substr value 0 idx
              let value := substrFrom value (idx + 1)
              .running (i + 2) (st.emit (.define key (.STRING value)))
      else if name = "search-path" then
        if argv.length ≤ 1 + i then .returned 1 (st.log ++ [.cout (expecting 1)])
        else match argv[i + 1]? with
          | none => .fault
          | some path => .running (i + 2) (st.emit (.appendSearchPath path))
      else if name = "o" then
        if argv.length ≤ 1 + i then .returned 1 (st.log ++ [.cout (expecting 1)])
        else match argv[i + 1]? with
          | none => .fault
          | some path => .running (i + 2) { st with output := some path }
      else if name = "project-path" then
        if argv.length ≤ 1 + i then .returned 1 (st.log ++ [.cout (expecting 1)])
        else match argv[i + 1]? with
          | none => .fault
          | some path => .running (i + 2) { st with project_path := path }
      else
        .returned 1 (st.log ++ [.cerr (invalidFlag name)])
    else if st.filename = none then
      .running (i + 1) { st with filename := some tok }
    else
      .running (i + 1) { st with args := st.args ++ [tok] }

/-- One step of the loop: test `i < argc`, then run the body or leave the loop. -/
def step (argv : List String) : Config → Config
  | .running i st => if i < argv.length then body argv i st else .done st
  | c => c

/-- The configuration after `n` steps. -/
def iter (argv : List String) : Nat → Config → Config
  | 0, c => c
  | n + 1, c => step argv (iter argv n c)

/-- The state of `main` when the loop is entered. -/
def initial (w : World) : State :=
  { filename := none, output := none, project_path := w.current_path, args := [], log := [] }

/-- The loop is about to test `i < argc` with the locals in state `st`. -/
def Reaches (w : World) (argv : List String) (i : Nat) (st : State) : Prop :=
  ∃ n, iter argv n (.running 2 (initial w)) = .running i st

/-- The whole loop; `argc + 1` steps always suffice (`parseArgs_finished`). -/
def parseArgs (w : World) (argv : List String) : Config :=
  iter argv (argv.length + 1) (.running 2 (initial w))

/-! ## The modes -/

/-- The function `compile`. -/
def compile (w : World) (log : List Event) (path output : Option String) : Int × List Event :=
  match path with
  | none => (1, log ++ [.cerr "No input file specified\n"])
  | some p => (w.compile log p output, log ++ [.compile p output])

/-- The function `run`. -/
def run (w : World) (log : List Event) (path : Option String) : Int × List Event :=
  match path with
  | none => (1, log ++ [.cerr "No input file specified\n"])
  | some p =>
    let result := w.execute log p
    if result.type = ValueType.Error then
      (1, log ++ [.execute p, .cerr (result.pointer ++ "\n")])
    else
      (0, log ++ [.execute p])

/-- The `while (true)` loop of `interactive`, for at most `fuel` iterations; `input` is
what is left of standard input, line by line. -/
def interactiveLoop (w : World) : Nat → List String → List Event → Option (Int × List Event)
  | 0, _, _ => none
  | fuel + 1, input, log =>
    let log := log ++ [.cout "> "]
    match input with
    | [] => interactiveLoop w fuel [] (log ++ [.getline none])
    | line :: rest =>
      let log := log ++ [.getline (some line)]
      if line = ".exit" then some (0, log)
      else
        let result := w.executeString log line "<script>"
        interactiveLoop w fuel rest
          (log ++ [.executeString line "<script>", .cout (":: " ++ result.text ++ "\n")])

/-- The function `interactive`. -/
def interactive (w : World) (fuel : Nat) (log : List Event) : Option (Int × List Event) :=
  interactiveLoop w fuel w.stdin (log ++ [.cout (LOGO ++ "\n")])

/-- The text written by `printHelp`, one item per output statement. -/
def helpText : List String :=
  [ LOGO ++ "\n",
    "Source Programming Language\n",
    "Copyright (C) 2021 rlxos\n",
    "\n COMMANDS:\n",
    "   run                    Run srclang script and bytecode (source ends with .src)\n" ++
    "   interactive            Start srclang interactive shell\n" ++
    "   compile                Compile srclang script in bytecode\n" ++
    "   new <name>             Setup run srclang project\n" ++
    "   help                   Print this help message\n" ++
    "\n" ++
    " FLAGS:\n" ++
    "  -debug                  Enable debugging outputs\n" ++
    "  -breakpoint             Enable breakpoint at instructions\n" ++
    "  -search-path <path>     Append module search path\n" ++
    "  -define <key>=<value>   Define variable from command line\n" ++
    "\n" ]

/-- The function `printHelp`. -/
def printHelp (log : List Event) : Int × List Event :=
  (1, log ++ helpText.map Event.cout)

/-- The `try` block of `main`: the log it leaves and, when it throws, `what()`. -/
def tryProject (w : World) (task : String) (args : List String) (log : List Event) :
    List Event × Option String :=
  if task = "new" then
    match args with
    | [] => (log, some "no project name specified")
    | name :: _ => (log ++ [.create name], w.create log name)
  else if task = "test" then
    (log ++ [.test], w.test log)
  else
    (log, none)

/-- The task `main` reads from `argv[1]`. -/
def taskOf (argv : List String) : String :=
  if 2 ≤ argv.length then argv.getD 1 "help" else "help"

/-- The log `main` hands to the mode: the log of the flag loop, the binding of
`__ARGS__` and the construction of the project manager. -/
def State.dispatchLog (st : State) : List Event :=
  st.log ++ [.define "__ARGS__" (.LIST st.args), .ProjectManager st.project_path]

/-- Everything `main` does after the flag loop. -/
def dispatch (w : World) (fuel : Nat) (task : String) (st : State) : Option (Int × List Event) :=
  let log := st.dispatchLog
  if task = "help" then some (printHelp log)
  else if task = "run" then some (run w log st.filename)
  else if task = "interactive" then interactive w fuel log
  else if task = "compile" then some (compile w log st.filename st.output)
  else
    match tryProject w task st.args log with
    | (log, some what) => some (1, log ++ [.cerr ("ERROR: " ++ what ++ "\n")])
    | (log, none) => some (printHelp log)

/-- The function `main`: the exit code and the event log, or `none` when the
interactive loop is still running after `fuel` iterations. -/
def main (w : World) (fuel : Nat) (argv : List String) : Option (Int × List Event) :=
  match parseArgs w argv with
  | .done st => dispatch w fuel (taskOf argv) st
  | .returned code log => some (code, log)
  | _ => none

/-! ## Reading the log -/

/-- What was written to standard output. -/
def stdout (log : List Event) : List String :=
  log.filterMap fun e => match e with
    | .cout s => some s
    | _ => none

/-- What was written to the diagnostic stream. -/
def stderr (log : List Event) : List String :=
  log.filterMap fun e => match e with
    | .cerr s => some s
    | _ => none

/-- A sample world: nothing fails, standard input is empty. -/
def quietWorld : World :=
  { current_path := "/home/u",
    compile := fun _ _ _ => 0,
    execute := fun _ _ => { type := .Other, pointer := "", text := "null" },
    executeString := fun _ _ _ => { type := .Other, pointer := "", text := "null" },
    create := fun _ _ => none,
    test := fun _ => none,
    stdin := [] }

/-! ## Vocabulary of the properties -/

/-- The loop has been left: normally, by `return`, or by a read outside `argv`. -/
def Config.halted : Config → Prop
  | .running _ _ => False
  | _ => True

/-- The flags that take a value, as written on the command line. -/
def valueFlags : List String := ["-define", "-search-path", "-o", "-project-path"]

/-- The names `main` compares a flag against, after its leading `-` is skipped. -/
def flagNames : List String :=
  ["debug", "breakpoint", "define", "search-path", "o", "project-path"]

/-- At this moment of the scan either no filename is set and `args` is empty, or the
filename was captured from some token `argv[j]` that does not start with `-`, or
`main` has returned. -/
def CaptureInv (w : World) (argv : List String) (c : Config) : Prop :=
  (∃ i st, c = .running i st ∧ 2 ≤ i ∧ st.filename = none ∧ st.args = []) ∨
  (∃ st, c = .done st ∧ st.filename = none ∧ st.args = []) ∨
  (∃ j st0 tok, 2 ≤ j ∧ Reaches w argv j st0 ∧ st0.filename = none ∧ st0.args = [] ∧
      argv[j]? = some tok ∧ front tok ≠ '-' ∧
      Reaches w argv (j + 1) { st0 with filename := some tok }) ∨
  (∃ code log, c = .returned code log)

/-- The events the flag loop produces while it accepts flags: writes to the option
table, defines and search-path appends. -/
def Event.isConfig : Event → Bool
  | .setOption _ => true
  | .define _ _ => true
  | .appendSearchPath _ => true
  | _ => false

/-- The two messages with which the flag loop gives up. -/
def Event.isArgumentError : Event → Prop
  | .cout text => text = expecting 1
  | .cerr text => ∃ name, name ∉ flagNames ∧ text = invalidFlag name
  | _ => False

/-- What holds at every moment of the scan: `i` stays within `2 .. argc` (when there
is anything to scan), nothing is read outside `argv`, the log holds configuration
events only, and a `return` inside the loop has code 1 and one closing message. -/
def ScanInv (argv : List String) : Config → Prop
  | .running i st => 2 ≤ i ∧ (2 ≤ argv.length → i ≤ argv.length) ∧
      ∀ e ∈ st.log, e.isConfig = true
  | .done st => ∀ e ∈ st.log, e.isConfig = true
  | .returned code log => code = 1 ∧ ∃ log0 msg, log = log0 ++ [msg] ∧
      (∀ e ∈ log0, e.isConfig = true) ∧ msg.isArgumentError
  | .fault => False

/-- The specification's reading of the argument grammar (section 4.1): the values
that follow each occurrence of `flag` recognised before the filename, in input order.
Tokens are scanned left to right; a token is a flag only while no filename has been
met and when it starts with `-`; a flag that takes a value consumes the next token;
the first token that is not a flag is the filename, and nothing after it is a flag. -/
def recognisedValues (flag : String) : List String → List String
  | [] => []
  | tok :: rest =>
    if front tok = '-' then
      if tok ∈ valueFlags then
        match rest with
        | [] => []
        | v :: rest' => (if tok = flag then [v] else []) ++ recognisedValues flag rest'
      else recognisedValues flag rest
    else []

/-- The paths passed to `appendSearchPath`, in call order. -/
def searchPathCalls (log : List Event) : List String :=
  log.filterMap fun e => match e with
    | .appendSearchPath p => some p
    | _ => none

/-- The search-path calls made so far, with those still to come, are the ones the
specification's reading of the arguments announces. -/
def SearchPathInv (argv : List String) : Config → Prop
  | .running i st =>
      searchPathCalls st.log ++
        (if st.filename = none then recognisedValues "-search-path" (argv.drop i) else []) =
      recognisedValues "-search-path" (argv.drop 2)
  | .done st => searchPathCalls st.log = recognisedValues "-search-path" (argv.drop 2)
  | _ => True

/-- The calls that carry out a mode: compile, execute (a file or a string), create
and test. -/
def Event.isOperation : Event → Bool
  | .compile _ _ => true
  | .execute _ => true
  | .executeString _ _ => true
  | .create _ => true
  | .test => true
  | _ => false

/-- The value of `output` so far is the last `-o` value seen, and the `-o` values seen
with those still to come are the ones the specification's reading announces. -/
def OutputInv (argv : List String) : Config → Prop
  | .running i st => ∃ seen : List String, seen.getLast? = st.output ∧
      seen ++ (if st.filename = none then recognisedValues "-o" (argv.drop i) else []) =
        recognisedValues "-o" (argv.drop 2)
  | .done st => st.output = (recognisedValues "-o" (argv.drop 2)).getLast?
  | _ => True

/-- The files passed to `execute`, in call order. -/
def executeCalls (log : List Event) : List String :=
  log.filterMap fun e => match e with
    | .execute p => some p
    | _ => none

/-- A sample world in which the runtime reports failures: `execute` returns an error
value and `compile` returns the status 3. -/
def failingWorld : World :=
  { current_path := "/home/u",
    compile := fun _ _ _ => 3,
    execute := fun _ _ => { type := .Error, pointer := "boom", text := "<error>" },
    executeString := fun _ _ _ => { type := .Error, pointer := "boom", text := "<error>" },
    create := fun _ _ => some "cannot create",
    test := fun _ => some "tests failed",
    stdin := [] }

/-- The strings passed to the runtime's execute-string operation with their labels, in
call order. -/
def executeStringCalls (log : List Event) : List (String × String) :=
  log.filterMap fun e => match e with
    | .executeString input label => some (input, label)
    | _ => none

/-- The results of the reads of standard input, in order (`none` for a failed read). -/
def getlineCalls (log : List Event) : List (Option String) :=
  log.filterMap fun e => match e with
    | .getline line => some line
    | _ => none

/-- The names passed to the project manager's create operation, in call order. -/
def createCalls (log : List Event) : List String :=
  log.filterMap fun e => match e with
    | .create name => some name
    | _ => none

/-- The specification's account of the interactive loop over lines that are not the
exit command (section 4.3): for each line, in order, the prompt, the read of the
line, the call of the execute-string operation on it with the label `<script>`, and
the text of its result printed after `:: `. -/
def transcript (w : World) : List String → List Event → List Event
  | [], log => log
  | line :: rest, log =>
    transcript w rest (log ++ [.cout "> "] ++ [.getline (some line)] ++
      [.executeString line "<script>",
       .cout (":: " ++ (w.executeString (log ++ [.cout "> "] ++ [.getline (some line)])
          line "<script>").text ++ "\n")])

/-- A sample world whose standard input holds three lines, the second being the exit
command; the text of a result is the line that was executed. -/
def echoWorld : World :=
  { current_path := "/home/u",
    compile := fun _ _ _ => 0,
    execute := fun _ _ => { type := .Other, pointer := "", text := "null" },
    executeString := fun _ input _ => { type := .Other, pointer := "", text := input },
    create := fun _ _ => none,
    test := fun _ => none,
    stdin := ["1 + 1", ".exit", "2 + 2"] }

/-- A sample world whose standard input holds the exit command with a leading blank,
with a trailing blank, and then exactly. -/
def paddedWorld : World :=
  { current_path := "/home/u",
    compile := fun _ _ _ => 0,
    execute := fun _ _ => { type := .Other, pointer := "", text := "null" },
    executeString := fun _ _ _ => { type := .Other, pointer := "", text := "null" },
    create := fun _ _ => none,
    test := fun _ => none,
    stdin := [" .exit", ".exit ", ".exit"] }

/-- The `while (true)` loop of `interactive` observed after at most `fuel` iterations:
the value returned if the loop has been left (`none` while it is still running), what
is left of standard input, and the log so far.  It is the loop of `interactiveLoop`,
which keeps only the case where the loop has been left. -/
def interactiveState (w : World) :
    Nat → List String → List Event → Option Int × List String × List Event
  | 0, input, log => (none, input, log)
  | fuel + 1, input, log =>
    let log := log ++ [.cout "> "]
    match input with
    | [] => interactiveState w fuel [] (log ++ [.getline none])
    | line :: rest =>
      let log := log ++ [.getline (some line)]
      if line = ".exit" then (some 0, rest, log)
      else
        let result := w.executeString log line "<script>"
        interactiveState w fuel rest
          (log ++ [.executeString line "<script>", .cout (":: " ++ result.text ++ "\n")])

/-- What `main` has done once the flag loop is over and the mode has run, the
interactive loop for at most `fuel` iterations: the exit code if `main` has returned
(`none` while the interactive loop is still running) and the log so far. -/
def dispatchState (w : World) (fuel : Nat) (task : String) (st : State) :
    Option Int × List Event :=
  if task = "interactive" then
    let s := interactiveState w fuel w.stdin (st.dispatchLog ++ [.cout (LOGO ++ "\n")])
    (s.1, s.2.2)
  else
    match dispatch w fuel task st with
    | some r => (some r.1, r.2)
    | none => (none, st.dispatchLog)

/-- The function `main` observed with at most `fuel` iterations of the interactive
loop: the exit code if it has returned, and the log so far in either case. -/
def mainState (w : World) (fuel : Nat) (argv : List String) : Option Int × List Event :=
  match parseArgs w argv with
  | .done st => dispatchState w fuel (taskOf argv) st
  | .returned code log => (some code, log)
  | _ => (none, [])

/-- The log of `k` iterations of the interactive loop at the end of input: each
writes the prompt and fails to read. -/
def idle : Nat → List Event
  | 0 => []
  | k + 1 => [.cout "> ", .getline none] ++ idle k

/-! ## Basic facts about the loop -/

theorem iter_succ_front (argv : List String) (n : Nat) (c : Config) :
    iter argv (n + 1) c = iter argv n (step argv c) := by
  induction n with
  | zero => rfl
  | succ n ih =>
    show step argv (iter argv (n + 1) c) = step argv (iter argv n (step argv c))
    rw [ih]

theorem iter_add (argv : List String) (m n : Nat) (c : Config) :
    iter argv (m + n) c = iter argv n (iter argv m c) := by
  induction n with
  | zero => rfl
  | succ n ih =>
    show step argv (iter argv (m + n) c) = step argv (iter argv n (iter argv m c))
    rw [ih]

theorem step_halted (argv : List String) {c : Config} (h : c.halted) : step argv c = c := by
  cases c <;> first | rfl | exact absurd h id

theorem iter_halted (argv : List String) (n : Nat) {c : Config} (h : c.halted) :
    iter argv n c = c := by
  induction n with
  | zero => rfl
  | succ n ih =>
    show step argv (iter argv n c) = c
    rw [ih, step_halted argv h]

theorem front_advance {tok : String} (h : front tok = '-') : tok = "-" ++ advance tok := by
  rcases tok with ⟨l⟩
  cases l with
  | nil => exact absurd h (by decide)
  | cons a l =>
    have ha : a = '-' := h
    subst ha
    rfl

theorem advance_dash (name : String) : advance ("-" ++ name) = name := rfl

theorem front_dash (name : String) : front ("-" ++ name) = '-' := rfl

theorem getElem?_of_lt {argv : List String} {i : Nat} (hi : i < argv.length) :
    ∃ tok, argv[i]? = some tok := ⟨argv[i], List.getElem?_eq_getElem hi⟩

/-- Case analysis of one pass through the loop body: whatever holds of the result of
each branch holds of `body argv i st`. -/
theorem body_elim {P : Config → Prop} (argv : List String) (i : Nat) (st : State)
    (hi : i < argv.length)
    (positional : ∀ tok, argv[i]? = some tok → st.filename ≠ none →
      P (.running (i + 1) { st with args := st.args ++ [tok] }))
    (file : ∀ tok, argv[i]? = some tok → st.filename = none → front tok ≠ '-' →
      P (.running (i + 1) { st with filename := some tok }))
    (debug : argv[i]? = some "-debug" → st.filename = none →
      P (.running (i + 1) (st.emit (.setOption "DEBUG"))))
    (breakpoint : argv[i]? = some "-breakpoint" → st.filename = none →
      P (.running (i + 1) (st.emit (.setOption "BREAK"))))
    (missing : ∀ tok, argv[i]? = some tok → st.filename = none → tok ∈ valueFlags →
      argv.length = i + 1 → P (.returned 1 (st.log ++ [.cout (expecting 1)])))
    (defineTrue : ∀ v, argv[i]? = some "-define" → argv[i + 1]? = some v →
      st.filename = none → '=' ∉ v.data → P (.running (i + 2) (st.emit (.define v .TRUE))))
    (defineString : ∀ v, argv[i]? = some "-define" → argv[i + 1]? = some v →
      st.filename = none → '=' ∈ v.data →
      P (.running (i + 2) (st.emit (.define (substr v 0 (v.data.indexOf '='))
        (.STRING (substrFrom v (v.data.indexOf '=' + 1)))))))
    (searchPath : ∀ v, argv[i]? = some "-search-path" → argv[i + 1]? = some v →
      st.filename = none → P (.running (i + 2) (st.emit (.appendSearchPath v))))
    (o : ∀ v, argv[i]? = some "-o" → argv[i + 1]? = some v →
      st.filename = none → P (.running (i + 2) { st with output := some v }))
    (projectPath : ∀ v, argv[i]? = some "-project-path" → argv[i + 1]? = some v →
      st.filename = none → P (.running (i + 2) { st with project_path := v }))
    (invalid : ∀ name, argv[i]? = some ("-" ++ name) → st.filename = none →
      name ∉ flagNames → P (.returned 1 (st.log ++ [.cerr (invalidFlag name)]))) :
    P (body argv i st) := by
  obtain ⟨tok, htok⟩ := getElem?_of_lt hi
  unfold body
  rw [htok]
  dsimp only
  by_cases hf : st.filename = none
  · by_cases hd : front tok = '-'
    · have htk := front_advance hd
      rw [if_pos ⟨hf, hd⟩]
      generalize advance tok = name at htk ⊢
      subst htk
      have hnext : ¬ argv.length ≤ 1 + i → ∃ v, argv[i + 1]? = some v := fun h =>
        getElem?_of_lt (by omega)
      have hlen : argv.length ≤ 1 + i → argv.length = i + 1 := fun h => by omega
      by_cases h1 : name = "debug"
      · subst h1; rw [if_pos rfl]; exact debug htok hf
      rw [if_neg h1]
      by_cases h2 : name = "breakpoint"
      · subst h2; rw [if_pos rfl]; exact breakpoint htok hf
      rw [if_neg h2]
      by_cases h3 : name = "define"
      · subst h3; rw [if_pos rfl]
        by_cases hc : argv.length ≤ 1 + i
        · rw [if_pos hc]; exact missing _ htok hf (by decide) (hlen hc)
        · rw [if_neg hc]
          obtain ⟨v, hv⟩ := hnext hc
          rw [hv]
          dsimp only
          unfold find_first_of
          by_cases he : '=' ∈ v.data
          · rw [if_pos he]; exact defineString v htok hv hf he
          · rw [if_neg he]; exact defineTrue v htok hv hf he
      rw [if_neg h3]
      by_cases h4 : name = "search-path"
      · subst h4; rw [if_pos rfl]
        by_cases hc : argv.length ≤ 1 + i
        · rw [if_pos hc]; exact missing _ htok hf (by decide) (hlen hc)
        · rw [if_neg hc]
          obtain ⟨v, hv⟩ := hnext hc
          rw [hv]
          exact searchPath v htok hv hf
      rw [if_neg h4]
      by_cases h5 : name = "o"
      · subst h5; rw [if_pos rfl]
        by_cases hc : argv.length ≤ 1 + i
        · rw [if_pos hc]; exact missing _ htok hf (by decide) (hlen hc)
        · rw [if_neg hc]
          obtain ⟨v, hv⟩ := hnext hc
          rw [hv]
          exact o v htok hv hf
      rw [if_neg h5]
      by_cases h6 : name = "project-path"
      · subst h6; rw [if_pos rfl]
        by_cases hc : argv.length ≤ 1 + i
        · rw [if_pos hc]; exact missing _ htok hf (by decide) (hlen hc)
        · rw [if_neg hc]
          obtain ⟨v, hv⟩ := hnext hc
          rw [hv]
          exact projectPath v htok hv hf
      rw [if_neg h6]
      refine invalid name htok hf ?_
      simp [flagNames, h1, h2, h3, h4, h5, h6]
    · rw [if_neg (fun h => hd h.2), if_pos hf]
      exact file tok htok hf hd
  · rw [if_neg (fun h => hf h.1), if_neg hf]
    exact positional tok htok hf

theorem iter_invariant {P : Config → Prop} (argv : List String)
    (hstep : ∀ c, P c → P (step argv c)) : ∀ n c, P c → P (iter argv n c) := by
  intro n c hc
  induction n with
  | zero => exact hc
  | succ n ih => exact hstep _ ih

theorem lt_length_of_getElem? {argv : List String} {i : Nat} {tok : String}
    (h : argv[i]? = some tok) : i < argv.length := by
  by_contra hn
  rw [List.getElem?_eq_none (by omega)] at h
  exact Option.noConfusion h

/-- A pass through the body either returns from `main` or moves `i` forward, never
beyond `argc`; it never reads outside `argv`. -/
theorem body_progress (argv : List String) (i : Nat) (st : State) (hi : i < argv.length) :
    (∃ j st', body argv i st = .running j st' ∧ i < j ∧ j ≤ argv.length) ∨
    (∃ code log, body argv i st = .returned code log) := by
  refine body_elim (P := fun c => (∃ j st', c = .running j st' ∧ i < j ∧ j ≤ argv.length) ∨
      (∃ code log, c = .returned code log)) argv i st hi ?_ ?_ ?_ ?_ ?_ ?_ ?_ ?_ ?_ ?_ ?_
  · intro tok _ _; exact Or.inl ⟨_, _, rfl, by omega, by omega⟩
  · intro tok _ _ _; exact Or.inl ⟨_, _, rfl, by omega, by omega⟩
  · intro _ _; exact Or.inl ⟨_, _, rfl, by omega, by omega⟩
  · intro _ _; exact Or.inl ⟨_, _, rfl, by omega, by omega⟩
  · intro tok _ _ _ _; exact Or.inr ⟨_, _, rfl⟩
  · intro v _ hv _ _
    have := lt_length_of_getElem? hv
    exact Or.inl ⟨_, _, rfl, by omega, by omega⟩
  · intro v _ hv _ _
    have := lt_length_of_getElem? hv
    exact Or.inl ⟨_, _, rfl, by omega, by omega⟩
  · intro v _ hv _
    have := lt_length_of_getElem? hv
    exact Or.inl ⟨_, _, rfl, by omega, by omega⟩
  · intro v _ hv _
    have := lt_length_of_getElem? hv
    exact Or.inl ⟨_, _, rfl, by omega, by omega⟩
  · intro v _ hv _
    have := lt_length_of_getElem? hv
    exact Or.inl ⟨_, _, rfl, by omega, by omega⟩
  · intro name _ _ _; exact Or.inr ⟨_, _, rfl⟩

/-- From any point of the scan, `argc - i + 1` steps leave the loop, either normally
or by `return`. -/
theorem iter_finishes (argv : List String) :
    ∀ k i st, argv.length - i ≤ k →
      (∃ st', iter argv (k + 1) (.running i st) = .done st') ∨
      (∃ code log, iter argv (k + 1) (.running i st) = .returned code log) := by
  intro k
  induction k with
  | zero =>
    intro i st h
    left
    refine ⟨st, ?_⟩
    show step argv (.running i st) = .done st
    simp only [step]
    rw [if_neg (by omega)]
  | succ k ih =>
    intro i st h
    rw [iter_succ_front]
    by_cases hi : i < argv.length
    · have hs : step argv (.running i st) = body argv i st := by
        simp only [step]; rw [if_pos hi]
      rw [hs]
      rcases body_progress argv i st hi with ⟨j, st', hb, hij, _⟩ | ⟨code, log, hb⟩
      · rw [hb]; exact ih j st' (by omega)
      · rw [hb, iter_halted argv _ (by exact True.intro)]
        exact Or.inr ⟨code, log, rfl⟩
    · have hs : step argv (.running i st) = .done st := by
        simp only [step]; rw [if_neg hi]
      rw [hs, iter_halted argv _ (by exact True.intro)]
      exact Or.inl ⟨st, rfl⟩

/-- The flag loop always ends, normally or by `return`; it never reads outside
`argv`. -/
theorem parseArgs_finished (w : World) (argv : List String) :
    (∃ st, parseArgs w argv = .done st) ∨ (∃ code log, parseArgs w argv = .returned code log) :=
  iter_finishes argv argv.length 2 (initial w) (by omega)

theorem parseArgs_halted (w : World) (argv : List String) : (parseArgs w argv).halted := by
  rcases parseArgs_finished w argv with ⟨st, h⟩ | ⟨code, log, h⟩ <;> rw [h] <;> exact True.intro

/-- The result of the loop can be computed from any configuration it goes through. -/
theorem parseArgs_of_reaches {w : World} {argv : List String} {i : Nat} {st : State}
    (h : Reaches w argv i st) :
    parseArgs w argv = iter argv (argv.length + 1) (.running i st) := by
  obtain ⟨n, hn⟩ := h
  have h1 : iter argv (argv.length + 1 + n) (.running 2 (initial w)) = parseArgs w argv := by
    rw [iter_add]
    exact iter_halted argv n (parseArgs_halted w argv)
  have h2 : iter argv (n + (argv.length + 1)) (.running 2 (initial w)) =
      iter argv (argv.length + 1) (.running i st) := by
    rw [iter_add, hn]
  rw [← h1, ← h2, Nat.add_comm]

theorem reaches_step {w : World} {argv : List String} {i j : Nat} {st st' : State}
    (h : Reaches w argv i st) (hs : step argv (.running i st) = .running j st') :
    Reaches w argv j st' := by
  obtain ⟨n, hn⟩ := h
  refine ⟨n + 1, ?_⟩
  show step argv (iter argv n _) = _
  rw [hn, hs]

theorem step_running {argv : List String} {i : Nat} (st : State) (hi : i < argv.length) :
    step argv (.running i st) = body argv i st := by
  simp only [step]; rw [if_pos hi]

theorem step_exit {argv : List String} {i : Nat} (st : State) (hi : ¬ i < argv.length) :
    step argv (.running i st) = .done st := by
  simp only [step]; rw [if_neg hi]

/-! ## Tokens after the filename -/

theorem body_positional {argv : List String} {i : Nat} {st : State} {f tok : String}
    (hf : st.filename = some f) (htok : argv[i]? = some tok) :
    body argv i st = .running (i + 1) { st with args := st.args ++ [tok] } := by
  unfold body
  rw [htok]
  simp [hf]

theorem body_file {argv : List String} {i : Nat} {st : State} {tok : String}
    (htok : argv[i]? = some tok) (hf : st.filename = none) (hd : front tok ≠ '-') :
    body argv i st = .running (i + 1) { st with filename := some tok } := by
  unfold body
  rw [htok]
  simp [hf, hd]

/-- Once a filename is set, the rest of the loop appends every remaining token to
`args`, changes nothing else, and leaves the loop normally. -/
theorem tail_loop (argv : List String) (f : String) :
    ∀ k i st, st.filename = some f → argv.length - i ≤ k →
      iter argv (k + 1) (.running i st) = .done { st with args := st.args ++ argv.drop i } := by
  intro k
  induction k with
  | zero =>
    intro i st _ h
    show step argv (.running i st) = _
    rw [step_exit st (by omega), List.drop_of_length_le (by omega), List.append_nil]
  | succ k ih =>
    intro i st hf h
    rw [iter_succ_front]
    by_cases hi : i < argv.length
    · obtain ⟨tok, htok⟩ := getElem?_of_lt hi
      rw [step_running st hi, body_positional hf htok,
        ih (i + 1) { st with args := st.args ++ [tok] } hf (by omega)]
      have hd : argv.drop i = tok :: argv.drop (i + 1) := by
        rw [List.getElem?_eq_getElem hi] at htok
        rw [List.drop_eq_getElem_cons hi, Option.some.inj htok]
      simp [hd]
    · rw [step_exit st hi, iter_halted argv _ (by exact True.intro),
        List.drop_of_length_le (by omega), List.append_nil]

theorem capture_invariant (w : World) (argv : List String) (n : Nat) :
    CaptureInv w argv (iter argv n (.running 2 (initial w))) := by
  induction n with
  | zero => exact Or.inl ⟨2, initial w, rfl, le_refl 2, rfl, rfl⟩
  | succ n ih =>
    show CaptureInv w argv (step argv (iter argv n _))
    rcases ih with ⟨i, st, hc, h2, hf, ha⟩ | ⟨st, hc, hf, ha⟩ | hcap | ⟨code, log, hc⟩
    · have hr : Reaches w argv i st := ⟨n, hc⟩
      rw [hc]
      by_cases hi : i < argv.length
      · rw [step_running st hi]
        refine body_elim (P := fun c => body argv i st = c → CaptureInv w argv c) argv i st hi
          ?_ ?_ ?_ ?_ ?_ ?_ ?_ ?_ ?_ ?_ ?_ rfl
        · intro tok _ hne _; exact absurd hf hne
        · intro tok htok _ hd hb
          refine Or.inr (Or.inr (Or.inl ⟨i, st, tok, h2, hr, hf, ha, htok, hd, ?_⟩))
          exact reaches_step hr (by rw [step_running st hi, hb])
        all_goals intros
        all_goals intro _
        all_goals unfold CaptureInv
        all_goals first
          | exact Or.inl ⟨_, _, rfl, by omega, hf, ha⟩
          | exact Or.inr (Or.inr (Or.inr ⟨_, _, rfl⟩))
      · rw [step_exit st hi]
        exact Or.inr (Or.inl ⟨st, rfl, hf, ha⟩)
    · rw [hc]
      exact Or.inr (Or.inl ⟨st, rfl, hf, ha⟩)
    · exact Or.inr (Or.inr (Or.inl hcap))
    · rw [hc]
      exact Or.inr (Or.inr (Or.inr ⟨code, log, rfl⟩))

theorem interactiveLoop_log (w : World) :
    ∀ fuel input log r, interactiveLoop w fuel input log = some r →
      ∃ tail, r.2 = log ++ tail ∧ ∀ e ∈ tail, e.isConfig = false := by
  intro fuel
  induction fuel with
  | zero => intro input log r h; exact Option.noConfusion h
  | succ fuel ih =>
    intro input log r h
    cases input with
    | nil =>
      obtain ⟨tail, ht, hc⟩ := ih _ _ _ h
      refine ⟨[.cout "> ", .getline none] ++ tail, by rw [ht]; simp, ?_⟩
      intro e he
      rcases List.mem_append.mp he with he | he
      · simp only [List.mem_cons, List.mem_singleton, List.not_mem_nil, or_false] at he
        rcases he with rfl | rfl <;> rfl
      · exact hc e he
    | cons line rest =>
      simp only [interactiveLoop] at h
      by_cases he : line = ".exit"
      · rw [if_pos he] at h
        cases h
        refine ⟨[.cout "> ", .getline (some line)], by simp, ?_⟩
        intro e he
        simp only [List.mem_cons, List.mem_singleton, List.not_mem_nil, or_false] at he
        rcases he with rfl | rfl <;> rfl
      · rw [if_neg he] at h
        obtain ⟨tail, ht, hc⟩ := ih _ _ _ h
        refine ⟨[.cout "> ", .getline (some line), .executeString line "<script>",
          .cout (":: " ++ (w.executeString (log ++ [.cout "> "] ++ [.getline (some line)])
            line "<script>").text ++ "\n")] ++ tail, by rw [ht]; simp, ?_⟩
        intro e he
        rcases List.mem_append.mp he with he | he
        · simp only [List.mem_cons, List.mem_singleton, List.not_mem_nil, or_false] at he
          rcases he with rfl | rfl | rfl | rfl <;> rfl
        · exact hc e he

theorem helpText_notConfig : ∀ e ∈ helpText.map Event.cout, e.isConfig = false := by
  intro e he
  obtain ⟨t, _, rfl⟩ := List.mem_map.mp he
  rfl

theorem tryProject_log (w : World) (task : String) (args : List String) (log : List Event) :
    ∃ tail, (tryProject w task args log).1 = log ++ tail ∧ ∀ e ∈ tail, e.isConfig = false := by
  unfold tryProject
  split
  · split
    · exact ⟨[], (List.append_nil _).symm, fun _ h => absurd h (List.not_mem_nil _)⟩
    · exact ⟨_, rfl, fun e h => by rw [List.mem_singleton.mp h]; rfl⟩
  · split
    · exact ⟨_, rfl, fun e h => by rw [List.mem_singleton.mp h]; rfl⟩
    · exact ⟨[], (List.append_nil _).symm, fun _ h => absurd h (List.not_mem_nil _)⟩

/-- Whatever the task, the log `main` leaves starts with the log of the flag loop,
followed by the binding of `__ARGS__` and the construction of the project manager;
what the mode adds after that holds no configuration event. -/
theorem dispatch_log (w : World) (fuel : Nat) (task : String) (st : State)
    (r : Int × List Event) (h : dispatch w fuel task st = some r) :
    ∃ tail, r.2 = st.log ++ [.define "__ARGS__" (.LIST st.args),
      .ProjectManager st.project_path] ++ tail ∧ ∀ e ∈ tail, e.isConfig = false := by
  unfold dispatch State.dispatchLog at h
  dsimp only at h
  split at h
  · cases h; exact ⟨_, rfl, helpText_notConfig⟩
  split at h
  · cases h
    unfold run
    split
    · exact ⟨_, rfl, fun e h => by rw [List.mem_singleton.mp h]; rfl⟩
    · dsimp only
      split
      · refine ⟨_, rfl, fun e he => ?_⟩
        simp only [List.mem_cons, List.mem_singleton, List.not_mem_nil, or_false] at he
        rcases he with rfl | rfl <;> rfl
      · exact ⟨_, rfl, fun e h => by rw [List.mem_singleton.mp h]; rfl⟩
  split at h
  · obtain ⟨tail, ht, hc⟩ := interactiveLoop_log w _ _ _ _ h
    refine ⟨[.cout (LOGO ++ "\n")] ++ tail, by rw [ht, List.append_assoc], fun e he => ?_⟩
    rcases List.mem_append.mp he with he | he
    · rw [List.mem_singleton.mp he]; rfl
    · exact hc e he
  split at h
  · cases h
    unfold compile
    split
    · exact ⟨_, rfl, fun e h => by rw [List.mem_singleton.mp h]; rfl⟩
    · exact ⟨_, rfl, fun e h => by rw [List.mem_singleton.mp h]; rfl⟩
  · obtain ⟨tail, ht, hc⟩ := tryProject_log w task st.args
      (st.log ++ [.define "__ARGS__" (.LIST st.args), .ProjectManager st.project_path])
    generalize tryProject w task st.args _ = tp at h ht
    obtain ⟨l, o⟩ := tp
    dsimp only at ht
    subst ht
    cases o with
    | none =>
      cases h
      refine ⟨tail ++ helpText.map Event.cout, List.append_assoc _ _ _, fun e he => ?_⟩
      rcases List.mem_append.mp he with he | he
      · exact hc e he
      · exact helpText_notConfig e he
    | some what =>
      cases h
      refine ⟨tail ++ [.cerr ("ERROR: " ++ what ++ "\n")], List.append_assoc _ _ _,
        fun e he => ?_⟩
      rcases List.mem_append.mp he with he | he
      · exact hc e he
      · rw [List.mem_singleton.mp he]; rfl

theorem main_of_done {w : World} {argv : List String} {st : State}
    (h : parseArgs w argv = .done st) (fuel : Nat) :
    main w fuel argv = dispatch w fuel (taskOf argv) st := by
  unfold main; rw [h]

theorem main_of_returned {w : World} {argv : List String} {code : Int} {log : List Event}
    (h : parseArgs w argv = .returned code log) (fuel : Nat) :
    main w fuel argv = some (code, log) := by
  unfold main; rw [h]

/-! ## What `main` has done, whether or not it has returned -/

/-- The loop of `interactiveLoop` returns exactly when the observed loop has been
left, with the same value and the same log. -/
theorem interactiveLoop_eq_state (w : World) :
    ∀ fuel input log, interactiveLoop w fuel input log =
      match interactiveState w fuel input log with
      | (some code, _, log') => some (code, log')
      | (none, _, _) => none := by
  intro fuel
  induction fuel with
  | zero => intro input log; rfl
  | succ fuel ih =>
    intro input log
    cases input with
    | nil => exact ih _ _
    | cons line rest =>
      simp only [interactiveLoop, interactiveState]
      by_cases he : line = ".exit"
      · rw [if_pos he, if_pos he]
      · rw [if_neg he, if_neg he]; exact ih _ _

theorem interactiveState_log (w : World) :
    ∀ fuel input log, ∃ tail, (interactiveState w fuel input log).2.2 = log ++ tail := by
  intro fuel
  induction fuel with
  | zero => intro input log; exact ⟨[], (List.append_nil _).symm⟩
  | succ fuel ih =>
    intro input log
    cases input with
    | nil =>
      obtain ⟨tail, ht⟩ := ih [] (log ++ [.cout "> "] ++ [.getline none])
      exact ⟨[.cout "> "] ++ ([.getline none] ++ tail), by
        show (interactiveState w fuel [] _).2.2 = _
        rw [ht, List.append_assoc, List.append_assoc]⟩
    | cons line rest =>
      simp only [interactiveState]
      by_cases he : line = ".exit"
      · rw [if_pos he]
        exact ⟨_, List.append_assoc _ _ _⟩
      · rw [if_neg he]
        obtain ⟨tail, ht⟩ := ih rest (log ++ [.cout "> "] ++ [.getline (some line)] ++
          [.executeString line "<script>",
           .cout (":: " ++ (w.executeString (log ++ [.cout "> "] ++ [.getline (some line)])
              line "<script>").text ++ "\n")])
        exact ⟨_, by rw [ht, List.append_assoc, List.append_assoc, List.append_assoc]⟩

/-- Every task but `interactive` makes `main` return once the flag loop is over. -/
theorem dispatch_returns (w : World) (fuel : Nat) (task : String) (st : State)
    (h : task ≠ "interactive") : ∃ r, dispatch w fuel task st = some r := by
  unfold dispatch
  dsimp only
  split
  · exact ⟨_, rfl⟩
  split
  · exact ⟨_, rfl⟩
  try rw [if_neg h]
  split
  · exact ⟨_, rfl⟩
  · generalize tryProject w task st.args st.dispatchLog = tp
    obtain ⟨l, o⟩ := tp
    cases o with
    | none => exact ⟨_, rfl⟩
    | some what => exact ⟨_, rfl⟩

theorem dispatch_eq_state (w : World) (fuel : Nat) (task : String) (st : State) :
    dispatch w fuel task st =
      match dispatchState w fuel task st with
      | (some code, log) => some (code, log)
      | (none, _) => none := by
  unfold dispatchState
  by_cases h : task = "interactive"
  · subst h
    rw [if_pos rfl]
    unfold dispatch
    simp only [(by decide : ¬ "interactive" = "help"), (by decide : ¬ "interactive" = "run"),
      if_false, if_true, interactive]
    rw [interactiveLoop_eq_state]
    generalize interactiveState w fuel w.stdin _ = s
    obtain ⟨c, i, l⟩ := s
    cases c <;> rfl
  · rw [if_neg h]
    cases hd : dispatch w fuel task st with
    | none => rfl
    | some r => rfl

/-- The function `main` returns exactly when the observed `main` has returned, with
the same exit code and the same log. -/
theorem main_eq_state (w : World) (fuel : Nat) (argv : List String) :
    main w fuel argv =
      match mainState w fuel argv with
      | (some code, log) => some (code, log)
      | (none, _) => none := by
  unfold main mainState
  cases hp : parseArgs w argv with
  | running i st => rfl
  | done st => exact dispatch_eq_state w fuel _ st
  | returned code log => rfl
  | fault => rfl

/-- Whatever the task and whether or not `main` has returned, the log starts with the
log of the flag loop followed by the binding of `__ARGS__`. -/
theorem dispatchState_log (w : World) (fuel : Nat) (task : String) (st : State) :
    ∃ tail, (dispatchState w fuel task st).2 =
      st.log ++ .define "__ARGS__" (.LIST st.args) :: tail := by
  unfold dispatchState
  by_cases h : task = "interactive"
  · rw [if_pos h]
    obtain ⟨tail, ht⟩ := interactiveState_log w fuel w.stdin
      (st.dispatchLog ++ [.cout (LOGO ++ "\n")])
    refine ⟨.ProjectManager st.project_path :: .cout (LOGO ++ "\n") :: tail, ?_⟩
    show (interactiveState w fuel w.stdin _).2.2 = _
    rw [ht]
    simp [State.dispatchLog]
  · rw [if_neg h]
    cases hd : dispatch w fuel task st with
    | none => exact ⟨[.ProjectManager st.project_path], by simp [State.dispatchLog]⟩
    | some r =>
      obtain ⟨tail, ht, _⟩ := dispatch_log w fuel task st r hd
      exact ⟨.ProjectManager st.project_path :: tail, by
        show r.2 = _
        rw [ht]; simp⟩

/-- C1: once a filename has been captured, every later token is appended to the
positional list verbatim and in input order, whatever its shape; it changes nothing
else of the state (options, defines, search paths, output path, project path) and
cannot make the scan fail.  After a successful scan the positional list is exactly
the tokens that follow the filename (none when there is no filename), and that list
is what `main` binds to `__ARGS__`, for every task: the binding follows the log of
the scan in the log of `main`, whether `main` has returned or is still in the
interactive loop, and for every task but `interactive` `main` does return. -/
theorem C1_tokens_after_filename (w : World) (argv : List String) :
    (∀ i st f tok, st.filename = some f → argv[i]? = some tok →
        step argv (.running i st) = .running (i + 1) { st with args := st.args ++ [tok] }) ∧
    (∀ i st f, Reaches w argv i st → st.filename = some f →
        parseArgs w argv = .done { st with args := st.args ++ argv.drop i }) ∧
    (∀ st, parseArgs w argv = .done st →
        (st.filename = none ∧ st.args = []) ∨
        ∃ j tok, 2 ≤ j ∧ argv[j]? = some tok ∧ st.filename = some tok ∧
          st.args = argv.drop (j + 1) ∧
          Reaches w argv j { st with filename := none, args := [] }) ∧
    (∀ st fuel r, parseArgs w argv = .done st → main w fuel argv = some r →
        ∃ tail, r.2 = st.log ++ .define "__ARGS__" (.LIST st.args) :: tail) ∧
    (∀ st fuel, parseArgs w argv = .done st →
        ∃ tail, (mainState w fuel argv).2 =
          st.log ++ .define "__ARGS__" (.LIST st.args) :: tail) ∧
    (∀ fuel, main w fuel argv =
        match mainState w fuel argv with
        | (some code, log) => some (code, log)
        | (none, _) => none) ∧
    (∀ st fuel, parseArgs w argv = .done st → taskOf argv ≠ "interactive" →
        ∃ r, main w fuel argv = some r) := by
  refine ⟨?_, ?_, ?_, ?_, ?_, fun fuel => main_eq_state w fuel argv, ?_⟩
  · intro i st f tok hf htok
    rw [step_running st (lt_length_of_getElem? htok), body_positional hf htok]
  · intro i st f hr hf
    rw [parseArgs_of_reaches hr]
    exact tail_loop argv f argv.length i st hf (by omega)
  · intro st hst
    have hinv := capture_invariant w argv (argv.length + 1)
    change CaptureInv w argv (parseArgs w argv) at hinv
    rw [hst] at hinv
    rcases hinv with ⟨i, st1, hc, _⟩ | ⟨st1, hc, hf, ha⟩ | ⟨j, st0, tok, h2, hr, hf, ha, htok, _, hr1⟩ |
      ⟨code, log, hc⟩
    · exact Config.noConfusion hc
    · cases hc; exact Or.inl ⟨hf, ha⟩
    · right
      have hp := tail_loop argv tok argv.length (j + 1) _
        (show ({ st0 with filename := some tok } : State).filename = some tok from rfl)
        (by omega)
      rw [← parseArgs_of_reaches hr1, hst] at hp
      cases hp
      refine ⟨j, tok, h2, htok, rfl, ?_, ?_⟩
      · simp [ha]
      · obtain ⟨fn, out, pp, ar, lg⟩ := st0
        cases hf; cases ha
        exact hr
    · exact Config.noConfusion hc
  · intro st fuel r hst hr
    rw [main_of_done hst] at hr
    obtain ⟨tail, ht, _⟩ := dispatch_log w fuel _ st r hr
    exact ⟨.ProjectManager st.project_path :: tail, by rw [ht]; simp⟩
  · intro st fuel hst
    unfold mainState
    rw [hst]
    exact dispatchState_log w fuel _ st
  · intro st fuel hst htask
    rw [main_of_done hst]
    exact dispatch_returns w fuel _ st htask

/-- C1 at `srclang run -debug f.src -o -bogus`: the two tokens after `f.src` become the
positional list and change nothing else; and at `srclang interactive f.src a -b` with
an empty standard input, where `main` never returns: after two iterations of the
interactive loop the log starts with the binding of `__ARGS__` to `a`, `-b`. -/
theorem C1_tokens_after_filename_witness :
    parseArgs quietWorld ["srclang", "run", "-debug", "f.src", "-o", "-bogus"] =
      .done { filename := some "f.src", output := none, project_path := "/home/u",
              args := ["-o", "-bogus"], log := [.setOption "DEBUG"] } ∧
    ∃ tail, (mainState quietWorld 2 ["srclang", "interactive", "f.src", "a", "-b"]).2 =
      [] ++ .define "__ARGS__" (.LIST ["a", "-b"]) :: tail :=
  ⟨(C1_tokens_after_filename quietWorld
      ["srclang", "run", "-debug", "f.src", "-o", "-bogus"]).2.1 4
    { filename := some "f.src", output := none, project_path := "/home/u",
      args := [], log := [.setOption "DEBUG"] } "f.src" ⟨2, by decide⟩ rfl,
   (C1_tokens_after_filename quietWorld
      ["srclang", "interactive", "f.src", "a", "-b"]).2.2.2.2.1
    { filename := some "f.src", output := none, project_path := "/home/u",
      args := ["a", "-b"], log := [] } 2 (by decide)⟩

/-! ## Bounds of the scan and shape of its log -/

theorem mem_snoc_isConfig {log : List Event} {e : Event}
    (h : ∀ x ∈ log, x.isConfig = true) (he : e.isConfig = true) :
    ∀ x ∈ log ++ [e], x.isConfig = true := by
  intro x hx
  rcases List.mem_append.mp hx with hx | hx
  · exact h x hx
  · rw [List.mem_singleton.mp hx]; exact he

theorem scanInv_step (argv : List String) (c : Config) (h : ScanInv argv c) :
    ScanInv argv (step argv c) := by
  cases c with
  | running i st =>
    obtain ⟨h2, hle, hlog⟩ := h
    by_cases hi : i < argv.length
    · rw [step_running st hi]
      refine body_elim (P := ScanInv argv) argv i st hi ?_ ?_ ?_ ?_ ?_ ?_ ?_ ?_ ?_ ?_ ?_
      · intro tok _ _; exact ⟨by omega, fun _ => by omega, hlog⟩
      · intro tok _ _ _; exact ⟨by omega, fun _ => by omega, hlog⟩
      · intro _ _; exact ⟨by omega, fun _ => by omega, mem_snoc_isConfig hlog rfl⟩
      · intro _ _; exact ⟨by omega, fun _ => by omega, mem_snoc_isConfig hlog rfl⟩
      · intro tok _ _ _ _; exact ⟨rfl, _, _, rfl, hlog, rfl⟩
      · intro v _ hv _ _
        have := lt_length_of_getElem? hv
        exact ⟨by omega, fun _ => by omega, mem_snoc_isConfig hlog rfl⟩
      · intro v _ hv _ _
        have := lt_length_of_getElem? hv
        exact ⟨by omega, fun _ => by omega, mem_snoc_isConfig hlog rfl⟩
      · intro v _ hv _
        have := lt_length_of_getElem? hv
        exact ⟨by omega, fun _ => by omega, mem_snoc_isConfig hlog rfl⟩
      · intro v _ hv _
        have := lt_length_of_getElem? hv
        exact ⟨by omega, fun _ => by omega, hlog⟩
      · intro v _ hv _
        have := lt_length_of_getElem? hv
        exact ⟨by omega, fun _ => by omega, hlog⟩
      · intro name _ _ hn; exact ⟨rfl, _, _, rfl, hlog, name, hn, rfl⟩
    · rw [step_exit st hi]; exact hlog
  | done st => exact h
  | returned code log => exact h
  | fault => exact h

/-- The invariant `ScanInv` holds all along the scan of any argument vector. -/
theorem scanInv_iter (w : World) (argv : List String) (n : Nat) :
    ScanInv argv (iter argv n (.running 2 (initial w))) :=
  iter_invariant argv (scanInv_step argv) n _
    ⟨le_refl 2, fun h => h, fun _ h => absurd h (List.not_mem_nil _)⟩

theorem reaches_inv {w : World} {argv : List String} {i : Nat} {st : State}
    (h : Reaches w argv i st) :
    2 ≤ i ∧ (2 ≤ argv.length → i ≤ argv.length) ∧ ∀ e ∈ st.log, e.isConfig = true := by
  obtain ⟨n, hn⟩ := h
  have := scanInv_iter w argv n
  rw [hn] at this
  exact this

theorem parseArgs_of_reaches_step {w : World} {argv : List String} {i : Nat} {st : State}
    (h : Reaches w argv i st) {c : Config} (hs : step argv (.running i st) = c)
    (hc : c.halted) : parseArgs w argv = c := by
  rw [parseArgs_of_reaches h, iter_succ_front, hs, iter_halted argv _ hc]

theorem body_missing {argv : List String} {i : Nat} {st : State} {flag : String}
    (htok : argv[i]? = some flag) (hf : st.filename = none) (hflag : flag ∈ valueFlags)
    (hlast : i + 1 = argv.length) :
    body argv i st = .returned 1 (st.log ++ [.cout (expecting 1)]) := by
  have hle : argv.length ≤ 1 + i := by omega
  unfold body
  rw [htok]
  simp only [valueFlags, List.mem_cons, List.mem_singleton, List.not_mem_nil, or_false] at hflag
  rcases hflag with h | h | h | h <;> subst h <;> simp [hf, front, advance, hle]

/-- C2: when a flag that takes a value (`-define`, `-search-path`, `-o`,
`-project-path`) is recognised as a flag and is the last token, the scan stops there
with the message of `CHECK_COUNT`, `main` returns 1, the log holds nothing but the
configuration events made so far and that message (no mode is dispatched), and at no
moment of the scan is `argv` read outside its bounds or `i` moved beyond `argc`. -/
theorem C2_value_flag_last (w : World) (fuel : Nat) (argv : List String) (i : Nat)
    (st : State) (flag : String)
    (hr : Reaches w argv i st) (hf : st.filename = none)
    (htok : argv[i]? = some flag) (hflag : flag ∈ valueFlags)
    (hlast : i + 1 = argv.length) :
    step argv (.running i st) = .returned 1 (st.log ++ [.cout "expecting 1 arguments\n"]) ∧
    main w fuel argv = some (1, st.log ++ [.cout "expecting 1 arguments\n"]) ∧
    (∀ e ∈ st.log, e.isConfig = true) ∧
    (∀ n, iter argv n (.running 2 (initial w)) ≠ .fault) ∧
    (∀ n j st', iter argv n (.running 2 (initial w)) = .running j st' → j ≤ argv.length) := by
  have hi : i < argv.length := by omega
  have hs : step argv (.running i st) = .returned 1 (st.log ++ [.cout (expecting 1)]) := by
    rw [step_running st hi, body_missing htok hf hflag hlast]
  have hinv := reaches_inv hr
  refine ⟨hs, ?_, hinv.2.2, ?_, ?_⟩
  · exact main_of_returned (parseArgs_of_reaches_step hr hs True.intro) fuel
  · intro n hn
    have := scanInv_iter w argv n
    rw [hn] at this
    exact this
  · intro n j st' hn
    have := scanInv_iter w argv n
    rw [hn] at this
    exact this.2.1 (by omega)

/-- C2 at `srclang compile -debug -o`: `-o` is last and has no value. -/
theorem C2_value_flag_last_witness :
    main quietWorld 0 ["srclang", "compile", "-debug", "-o"] =
      some (1, [.setOption "DEBUG", .cout "expecting 1 arguments\n"]) :=
  (C2_value_flag_last quietWorld 0 ["srclang", "compile", "-debug", "-o"] 3
    { filename := none, output := none, project_path := "/home/u", args := [],
      log := [.setOption "DEBUG"] } "-o" ⟨1, by decide⟩ rfl rfl (by decide) rfl).2.1

/-! ## What the scan has not read cannot matter -/

/-- A pass through the body reads `argv[i]`, `argv[i + 1]` and `argc`, nothing else. -/
theorem body_congr {argv argv' : List String} {i : Nat} (st : State)
    (h0 : argv'[i]? = argv[i]?) (h1 : argv'[i + 1]? = argv[i + 1]?) :
    body argv' i st = body argv i st := by
  have hl : argv'.length ≤ 1 + i ↔ argv.length ≤ 1 + i := by
    have e1 : argv'[i + 1]? = none ↔ argv'.length ≤ i + 1 := List.getElem?_eq_none_iff
    have e2 : argv[i + 1]? = none ↔ argv.length ≤ i + 1 := List.getElem?_eq_none_iff
    rw [h1] at e1
    rw [Nat.add_comm 1 i]
    exact e1.symm.trans e2
  unfold body
  rw [h0, h1]
  simp only [hl]

/-- A configuration reached in the scan of `argv` at index `i` is reached in the scan
of every argument vector with the same tokens up to index `i`. -/
theorem reaches_congr (w : World) (argv argv' : List String) :
    ∀ n i st, iter argv n (.running 2 (initial w)) = .running i st → i < argv.length →
      (∀ k, 2 ≤ k → k ≤ i → argv'[k]? = argv[k]?) →
      iter argv' n (.running 2 (initial w)) = .running i st := by
  intro n
  induction n with
  | zero => intro i st h _ _; exact h
  | succ n ih =>
    intro i st h hi hk
    have h' : step argv (iter argv n (.running 2 (initial w))) = .running i st := h
    show step argv' (iter argv' n (.running 2 (initial w))) = .running i st
    cases hc : iter argv n (.running 2 (initial w)) with
    | running j stj =>
      rw [hc] at h'
      by_cases hj : j < argv.length
      · rw [step_running stj hj] at h'
        have hji : j < i := by
          rcases body_progress argv j stj hj with ⟨j', st', hb, hlt, _⟩ | ⟨code, log, hb⟩
          · rw [hb] at h'; cases h'; exact hlt
          · rw [hb] at h'; exact Config.noConfusion h'
        have hj2 : 2 ≤ j := (reaches_inv ⟨n, hc⟩).1
        rw [ih j stj hc hj (fun k hk2 hkj => hk k hk2 (by omega))]
        have hj' : j < argv'.length := by
          obtain ⟨tok, htok⟩ := getElem?_of_lt hj
          exact lt_length_of_getElem? ((hk j hj2 (by omega)).trans htok)
        rw [step_running stj hj',
          body_congr stj (hk j hj2 (by omega)) (hk (j + 1) (by omega) (by omega))]
        exact h'
      · rw [step_exit stj hj] at h'; exact Config.noConfusion h'
    | done st' => rw [hc] at h'; exact Config.noConfusion h'
    | returned code log => rw [hc] at h'; exact Config.noConfusion h'
    | fault => rw [hc] at h'; exact Config.noConfusion h'

theorem body_invalid {argv : List String} {i : Nat} {st : State} {name : String}
    (htok : argv[i]? = some ("-" ++ name)) (hf : st.filename = none)
    (hname : name ∉ flagNames) :
    body argv i st = .returned 1 (st.log ++ [.cerr (invalidFlag name)]) := by
  simp only [flagNames, List.mem_cons, List.mem_singleton, List.not_mem_nil, or_false,
    not_or] at hname
  obtain ⟨h1, h2, h3, h4, h5, h6⟩ := hname
  unfold body
  rw [htok]
  simp only [hf, front_dash, advance_dash, and_self, if_true, h1, h2, h3, h4, h5, h6, if_false]

theorem main_invalid {w : World} {argv : List String} {i : Nat} {st : State} {name : String}
    (hr : Reaches w argv i st) (hf : st.filename = none)
    (htok : argv[i]? = some ("-" ++ name)) (hname : name ∉ flagNames) (fuel : Nat) :
    main w fuel argv = some (1, st.log ++ [.cerr (invalidFlag name)]) := by
  have hs : step argv (.running i st) = .returned 1 (st.log ++ [.cerr (invalidFlag name)]) := by
    rw [step_running st (lt_length_of_getElem? htok), body_invalid htok hf hname]
  exact main_of_returned (parseArgs_of_reaches_step hr hs True.intro) fuel

/-- C3: a token that starts with `-`, is met while no filename is set (and is not the
value of the flag before it), and whose name after that one `-` is none of `debug`,
`breakpoint`, `define`, `search-path`, `o`, `project-path`, stops the scan with the
`invalid flag` message; `main` returns 1 whatever the task; the log holds only the
configuration events made so far and that message, so no mode has run; and the tokens
after it are not examined: replacing them by any others gives the same result. -/
theorem C3_invalid_flag (w : World) (fuel : Nat) (argv : List String) (i : Nat)
    (st : State) (name : String)
    (hr : Reaches w argv i st) (hf : st.filename = none)
    (htok : argv[i]? = some ("-" ++ name)) (hname : name ∉ flagNames) :
    step argv (.running i st) =
      .returned 1 (st.log ++ [.cerr ("ERROR: invalid flag \x27-" ++ name ++ "\x27\n")]) ∧
    main w fuel argv =
      some (1, st.log ++ [.cerr ("ERROR: invalid flag \x27-" ++ name ++ "\x27\n")]) ∧
    (∀ e ∈ st.log, e.isConfig = true) ∧
    (∀ argv', (∀ k, 2 ≤ k → k ≤ i → argv'[k]? = argv[k]?) → main w fuel argv' =
      some (1, st.log ++ [.cerr ("ERROR: invalid flag \x27-" ++ name ++ "\x27\n")])) := by
  have hi := lt_length_of_getElem? htok
  refine ⟨?_, main_invalid hr hf htok hname fuel, (reaches_inv hr).2.2, ?_⟩
  · rw [step_running st hi, body_invalid htok hf hname]; rfl
  · intro argv' hk
    obtain ⟨n, hn⟩ := hr
    have hr' : Reaches w argv' i st := ⟨n, reaches_congr w argv argv' n i st hn hi hk⟩
    have h2 : 2 ≤ i := (reaches_inv hr').1
    exact main_invalid hr' hf ((hk i h2 (le_refl i)).trans htok) hname fuel

/-- C3 at `srclang run -debug --bogus f.src`: the name after the first `-` is
`-bogus`; the task and the token after the flag play no part. -/
theorem C3_invalid_flag_witness :
    main quietWorld 0 ["srclang", "run", "-debug", "--bogus", "f.src"] =
      some (1, [.setOption "DEBUG", .cerr "ERROR: invalid flag \x27--bogus\x27\n"]) ∧
    main quietWorld 0 ["srclang", "help", "-debug", "--bogus"] =
      some (1, [.setOption "DEBUG", .cerr "ERROR: invalid flag \x27--bogus\x27\n"]) :=
  have h := C3_invalid_flag quietWorld 0 ["srclang", "run", "-debug", "--bogus", "f.src"] 3
    { filename := none, output := none, project_path := "/home/u", args := [],
      log := [.setOption "DEBUG"] } "-bogus" ⟨1, by decide⟩ rfl rfl (by decide)
  ⟨h.2.1, h.2.2.2 ["srclang", "help", "-debug", "--bogus"] (by
    intro k h2 h3
    have hk : k = 2 ∨ k = 3 := by omega
    rcases hk with rfl | rfl <;> rfl)⟩

/-! ## The `-define` flag -/

theorem split_at_indexOf (c : Char) :
    ∀ l : List Char, c ∈ l →
      l.take (l.indexOf c) ++ c :: l.drop (l.indexOf c + 1) = l ∧ c ∉ l.take (l.indexOf c) := by
  intro l
  induction l with
  | nil => intro h; exact absurd h (List.not_mem_nil c)
  | cons a l ih =>
    intro h
    by_cases hac : a = c
    · subst hac
      simp [List.indexOf_cons]
    · have hc : c ∈ l := by
        rcases List.mem_cons.mp h with h | h
        · exact absurd h.symm hac
        · exact h
      obtain ⟨h1, h2⟩ := ih hc
      have hne : ¬ c = a := fun h => hac h.symm
      have hb : (a == c) = false := by simpa using hac
      simp only [List.indexOf_cons, hb, cond_false, List.take_succ_cons, List.drop_succ_cons,
        List.cons_append, List.mem_cons, not_or]
      exact ⟨by rw [h1], hne, h2⟩

theorem body_define_string {argv : List String} {i : Nat} {st : State} {v : String}
    (htok : argv[i]? = some "-define") (hv : argv[i + 1]? = some v)
    (hf : st.filename = none) (he : '=' ∈ v.data) :
    body argv i st = .running (i + 2) (st.emit (.define (substr v 0 (v.data.indexOf '='))
      (.STRING (substrFrom v (v.data.indexOf '=' + 1))))) := by
  have hlen := lt_length_of_getElem? hv
  have hle : ¬ argv.length ≤ 1 + i := by omega
  unfold body
  rw [htok]
  simp [hf, front, advance, hle, hv, find_first_of, he]

theorem body_define_true {argv : List String} {i : Nat} {st : State} {v : String}
    (htok : argv[i]? = some "-define") (hv : argv[i + 1]? = some v)
    (hf : st.filename = none) (he : '=' ∉ v.data) :
    body argv i st = .running (i + 2) (st.emit (.define v .TRUE)) := by
  have hlen := lt_length_of_getElem? hv
  have hle : ¬ argv.length ≤ 1 + i := by omega
  unfold body
  rw [htok]
  simp [hf, front, advance, hle, hv, find_first_of, he]

/-- C4: when the token after a recognised `-define` contains `=`, one define is
recorded whose key is the part before the first `=` (so it holds no `=`) and whose
value is the string after that first `=`: key, `=` and value put together give the
token back.  In particular `-define key=a=b` defines `key` as the string `a=b`. -/
theorem C4_define_key_value (argv : List String) (i : Nat) (st : State) (v : String)
    (hf : st.filename = none) (htok : argv[i]? = some "-define")
    (hv : argv[i + 1]? = some v) (he : '=' ∈ v.data) :
    (∃ key value,
      step argv (.running i st) =
        .running (i + 2) { st with log := st.log ++ [.define key (.STRING value)] } ∧
      key ++ "=" ++ value = v ∧ '=' ∉ key.data) ∧
    parseArgs quietWorld ["srclang", "run", "-define", "key=a=b"] =
      .done { filename := none, output := none, project_path := "/home/u", args := [],
              log := [.define "key" (.STRING "a=b")] } := by
  refine ⟨⟨substr v 0 (v.data.indexOf '='), substrFrom v (v.data.indexOf '=' + 1), ?_, ?_, ?_⟩,
    by decide⟩
  · rw [step_running st (lt_length_of_getElem? htok), body_define_string htok hv hf he]; rfl
  · obtain ⟨h1, _⟩ := split_at_indexOf '=' v.data he
    apply String.ext
    simp only [String.data_append, substr, substrFrom, List.drop_zero]
    rw [List.append_assoc]
    exact h1
  · obtain ⟨_, h2⟩ := split_at_indexOf '=' v.data he
    simpa [substr] using h2

/-- C4 at `srclang run -define key=a=b f.src`. -/
theorem C4_define_key_value_witness :
    ∃ key value,
      step ["srclang", "run", "-define", "key=a=b", "f.src"]
          (.running 2 (initial quietWorld)) =
        .running 4 { initial quietWorld with log := [.define key (.STRING value)] } ∧
      key ++ "=" ++ value = "key=a=b" ∧ '=' ∉ key.data :=
  (C4_define_key_value ["srclang", "run", "-define", "key=a=b", "f.src"] 2
    (initial quietWorld) "key=a=b" rfl rfl rfl (by decide)).1

/-- C5: when the token after a recognised `-define` contains no `=`, the scan goes on
and exactly one event is added to the log: the define of the whole token, as key, to
the value true.  Nothing else of the state changes. -/
theorem C5_define_flag (argv : List String) (i : Nat) (st : State) (v : String)
    (hf : st.filename = none) (htok : argv[i]? = some "-define")
    (hv : argv[i + 1]? = some v) (he : '=' ∉ v.data) :
    step argv (.running i st) =
      .running (i + 2) { st with log := st.log ++ [.define v .TRUE] } := by
  rw [step_running st (lt_length_of_getElem? htok), body_define_true htok hv hf he]; rfl

/-- C5 at `srclang run -define flag f.src`. -/
theorem C5_define_flag_witness :
    step ["srclang", "run", "-define", "flag", "f.src"] (.running 2 (initial quietWorld)) =
      .running 4 { initial quietWorld with log := [.define "flag" .TRUE] } :=
  C5_define_flag ["srclang", "run", "-define", "flag", "f.src"] 2 (initial quietWorld)
    "flag" rfl rfl rfl (by decide)

/-! ## Search paths -/

theorem drop_eq_cons {argv : List String} {i : Nat} {tok : String}
    (h : argv[i]? = some tok) : argv.drop i = tok :: argv.drop (i + 1) := by
  have hi := lt_length_of_getElem? h
  rw [List.getElem?_eq_getElem hi] at h
  rw [List.drop_eq_getElem_cons hi, Option.some.inj h]

theorem drop_eq_cons_cons {argv : List String} {i : Nat} {tok v : String}
    (h : argv[i]? = some tok) (hv : argv[i + 1]? = some v) :
    argv.drop i = tok :: v :: argv.drop (i + 2) := by
  rw [drop_eq_cons h, drop_eq_cons hv]

theorem searchPathCalls_append (a b : List Event) :
    searchPathCalls (a ++ b) = searchPathCalls a ++ searchPathCalls b :=
  List.filterMap_append _ _ _

theorem recognisedValues_file (flag tok : String) (rest : List String)
    (h : front tok ≠ '-') : recognisedValues flag (tok :: rest) = [] := by
  cases rest <;> simp [recognisedValues, h]

theorem recognisedValues_plain (flag tok : String) (rest : List String)
    (h : front tok = '-') (hv : tok ∉ valueFlags) :
    recognisedValues flag (tok :: rest) = recognisedValues flag rest := by
  cases rest <;> simp [recognisedValues, h, hv]

theorem recognisedValues_value (flag tok v : String) (rest : List String)
    (h : front tok = '-') (hv : tok ∈ valueFlags) :
    recognisedValues flag (tok :: v :: rest) =
      (if tok = flag then [v] else []) ++ recognisedValues flag rest := by
  simp [recognisedValues, h, hv]

theorem searchPathInv_step (argv : List String) (c : Config) (h : SearchPathInv argv c) :
    SearchPathInv argv (step argv c) := by
  cases c with
  | running i st =>
    by_cases hi : i < argv.length
    · rw [step_running st hi]
      simp only [SearchPathInv] at h
      refine body_elim (P := SearchPathInv argv) argv i st hi ?_ ?_ ?_ ?_ ?_ ?_ ?_ ?_ ?_ ?_ ?_
      · intro tok _ hne
        simp only [SearchPathInv, if_neg hne] at h ⊢
        exact h
      · intro tok htok hf hd
        rw [if_pos hf, drop_eq_cons htok, recognisedValues_file _ _ _ hd] at h
        simpa [SearchPathInv] using h
      · intro htok hf
        rw [if_pos hf, drop_eq_cons htok,
          recognisedValues_plain _ _ _ (by decide) (by decide)] at h
        simp only [SearchPathInv, State.emit, if_pos hf, searchPathCalls_append]
        rw [← h]
        simp [searchPathCalls]
      · intro htok hf
        rw [if_pos hf, drop_eq_cons htok,
          recognisedValues_plain _ _ _ (by decide) (by decide)] at h
        simp only [SearchPathInv, State.emit, if_pos hf, searchPathCalls_append]
        rw [← h]
        simp [searchPathCalls]
      · intros; exact True.intro
      · intro v htok hv hf _
        rw [if_pos hf, drop_eq_cons_cons htok hv,
          recognisedValues_value _ _ _ _ (by decide) (by decide)] at h
        simp only [SearchPathInv, State.emit, if_pos hf, searchPathCalls_append]
        rw [← h]
        simp [searchPathCalls]
      · intro v htok hv hf _
        rw [if_pos hf, drop_eq_cons_cons htok hv,
          recognisedValues_value _ _ _ _ (by decide) (by decide)] at h
        simp only [SearchPathInv, State.emit, if_pos hf, searchPathCalls_append]
        rw [← h]
        simp [searchPathCalls]
      · intro v htok hv hf
        rw [if_pos hf, drop_eq_cons_cons htok hv,
          recognisedValues_value _ _ _ _ (by decide) (by decide)] at h
        simp only [SearchPathInv, State.emit, if_pos hf, searchPathCalls_append]
        rw [← h]
        simp [searchPathCalls]
      · intro v htok hv hf
        rw [if_pos hf, drop_eq_cons_cons htok hv,
          recognisedValues_value _ _ _ _ (by decide) (by decide)] at h
        simp only [SearchPathInv, if_pos hf]
        rw [← h]
        simp
      · intro v htok hv hf
        rw [if_pos hf, drop_eq_cons_cons htok hv,
          recognisedValues_value _ _ _ _ (by decide) (by decide)] at h
        simp only [SearchPathInv, if_pos hf]
        rw [← h]
        simp
      · intros; exact True.intro
    · rw [step_exit st hi]
      simp only [SearchPathInv] at h ⊢
      rw [List.drop_of_length_le (by omega)] at h
      simpa [recognisedValues] using h
  | done st => exact h
  | returned code log => exact h
  | fault => exact h

theorem searchPathInv_start (w : World) (argv : List String) :
    SearchPathInv argv (.running 2 (initial w)) := by
  simp [SearchPathInv, initial, searchPathCalls]

theorem searchPathCalls_notConfig {tail : List Event}
    (h : ∀ e ∈ tail, e.isConfig = false) : searchPathCalls tail = [] := by
  induction tail with
  | nil => rfl
  | cons e tail ih =>
    have he := h e (List.mem_cons_self e tail)
    have ht := ih (fun x hx => h x (List.mem_cons_of_mem e hx))
    cases e <;> first | exact ht | exact Bool.noConfusion he

/-- C6: after a successful scan, the `appendSearchPath` calls made on the runtime, in
call order, are exactly the values that follow the `-search-path` flags recognised
before the filename, in input order and with multiplicity; the mode that runs
afterwards adds none. -/
theorem C6_search_paths_accumulate (w : World) (argv : List String) (st : State)
    (h : parseArgs w argv = .done st) :
    searchPathCalls st.log = recognisedValues "-search-path" (argv.drop 2) ∧
    ∀ fuel r, main w fuel argv = some r →
      searchPathCalls r.2 = recognisedValues "-search-path" (argv.drop 2) := by
  have hinv : SearchPathInv argv (parseArgs w argv) :=
    iter_invariant argv (searchPathInv_step argv) _ _ (searchPathInv_start w argv)
  rw [h] at hinv
  refine ⟨hinv, ?_⟩
  intro fuel r hr
  rw [main_of_done h] at hr
  obtain ⟨tail, ht, hc⟩ := dispatch_log w fuel _ st r hr
  rw [ht, searchPathCalls_append, searchPathCalls_append, searchPathCalls_notConfig hc]
  simpa [searchPathCalls] using hinv

/-- C6 at `srclang run -search-path a -o -search-path -search-path b -search-path a
f.src -search-path c`: three appends, `a`, `b`, `a`; the `-search-path` taken as the
value of `-o` and the one after the filename are not flags. -/
theorem C6_search_paths_accumulate_witness :
    searchPathCalls [.appendSearchPath "a", .appendSearchPath "b", .appendSearchPath "a"] =
      recognisedValues "-search-path" (["srclang", "run", "-search-path", "a", "-o",
        "-search-path", "-search-path", "b", "-search-path", "a", "f.src", "-search-path",
        "c"].drop 2) :=
  (C6_search_paths_accumulate quietWorld ["srclang", "run", "-search-path", "a", "-o",
      "-search-path", "-search-path", "b", "-search-path", "a", "f.src", "-search-path", "c"]
    { filename := some "f.src", output := some "-search-path", project_path := "/home/u",
      args := ["-search-path", "c"],
      log := [.appendSearchPath "a", .appendSearchPath "b", .appendSearchPath "a"] }
    (by decide)).1

/-! ## The modes `run` and `compile`, and help -/

theorem stderr_append (a b : List Event) : stderr (a ++ b) = stderr a ++ stderr b :=
  List.filterMap_append _ _ _

theorem stdout_append (a b : List Event) : stdout (a ++ b) = stdout a ++ stdout b :=
  List.filterMap_append _ _ _

theorem stderr_config {log : List Event} (h : ∀ e ∈ log, e.isConfig = true) :
    stderr log = [] := by
  induction log with
  | nil => rfl
  | cons e log ih =>
    have he := h e (List.mem_cons_self e log)
    have ht := ih (fun x hx => h x (List.mem_cons_of_mem e hx))
    cases e <;> first | exact ht | exact Bool.noConfusion he

theorem stdout_config {log : List Event} (h : ∀ e ∈ log, e.isConfig = true) :
    stdout log = [] := by
  induction log with
  | nil => rfl
  | cons e log ih =>
    have he := h e (List.mem_cons_self e log)
    have ht := ih (fun x hx => h x (List.mem_cons_of_mem e hx))
    cases e <;> first | exact ht | exact Bool.noConfusion he

theorem config_not_operation {e : Event} (h : e.isConfig = true) : e.isOperation = false := by
  cases e <;> first | rfl | exact Bool.noConfusion h

theorem done_log_config {w : World} {argv : List String} {st : State}
    (h : parseArgs w argv = .done st) : ∀ e ∈ st.log, e.isConfig = true := by
  have := scanInv_iter w argv (argv.length + 1)
  change ScanInv argv (parseArgs w argv) at this
  rw [h] at this
  exact this

theorem stdout_helpText : stdout (helpText.map Event.cout) = helpText := by
  unfold stdout
  rw [List.filterMap_map]
  exact List.filterMap_some _

/-- C7, as amended: when the task is `run` or `compile`, the flag scan ends without an
argument error and no filename was captured, `main` returns 1, the diagnostic stream
receives the one line `No input file specified` and nothing else, and neither
`execute` nor `compile` (nor any other operation) is called. -/
theorem C7_no_input_file (w : World) (fuel : Nat) (argv : List String) (st : State)
    (htask : taskOf argv = "run" ∨ taskOf argv = "compile")
    (hparse : parseArgs w argv = .done st) (hf : st.filename = none) :
    ∃ log, main w fuel argv = some (1, log) ∧
      stderr log = ["No input file specified\n"] ∧
      ∀ e ∈ log, e.isOperation = false := by
  have hcfg := done_log_config hparse
  refine ⟨st.log ++ [.define "__ARGS__" (.LIST st.args), .ProjectManager st.project_path] ++
    [.cerr "No input file specified\n"], ?_, ?_, ?_⟩
  · rw [main_of_done hparse]
    unfold dispatch State.dispatchLog
    rcases htask with ht | ht <;> rw [ht] <;> simp [run, compile, hf]
  · rw [stderr_append, stderr_append, stderr_config hcfg]
    rfl
  · intro e he
    rcases List.mem_append.mp he with he | he
    · rcases List.mem_append.mp he with he | he
      · exact config_not_operation (hcfg e he)
      · simp only [List.mem_cons, List.mem_singleton, List.not_mem_nil, or_false] at he
        rcases he with rfl | rfl <;> rfl
    · rw [List.mem_singleton.mp he]; rfl

/-- C7 at `srclang compile -debug -o out`: no filename. -/
theorem C7_no_input_file_witness :
    ∃ log, main quietWorld 0 ["srclang", "compile", "-debug", "-o", "out"] = some (1, log) ∧
      stderr log = ["No input file specified\n"] ∧
      ∀ e ∈ log, e.isOperation = false :=
  C7_no_input_file quietWorld 0 ["srclang", "compile", "-debug", "-o", "out"]
    { filename := none, output := some "out", project_path := "/home/u", args := [],
      log := [.setOption "DEBUG"] } (Or.inr (by decide)) (by decide) rfl

/-- C7 as stated fails at `srclang run -bogus`: the task is `run`, no filename is ever
captured, the exit code is 1, but the diagnostic stream receives the invalid-flag
message and not `No input file specified`. -/
theorem C7_counterexample :
    taskOf ["srclang", "run", "-bogus"] = "run" ∧
    (∀ n i st, iter ["srclang", "run", "-bogus"] n (.running 2 (initial quietWorld)) =
        .running i st → st.filename = none) ∧
    main quietWorld 0 ["srclang", "run", "-bogus"] =
      some (1, [.cerr "ERROR: invalid flag \x27-bogus\x27\n"]) ∧
    stderr [.cerr "ERROR: invalid flag \x27-bogus\x27\n"] ≠ ["No input file specified\n"] := by
  refine ⟨by decide, ?_, by decide, by decide⟩
  intro n i st h
  cases n with
  | zero => cases h; rfl
  | succ n =>
    rw [iter_succ_front] at h
    have hs : step ["srclang", "run", "-bogus"] (.running 2 (initial quietWorld)) =
        .returned 1 [.cerr "ERROR: invalid flag \x27-bogus\x27\n"] := by decide
    rw [hs, iter_halted _ n (c := .returned 1 _) True.intro] at h
    exact Config.noConfusion h

theorem parseArgs_no_tokens (w : World) (argv : List String) (h : argv.length ≤ 2) :
    parseArgs w argv = .done (initial w) := by
  unfold parseArgs
  rw [iter_succ_front, step_exit _ (by omega), iter_halted argv _ (c := .done _) True.intro]

theorem parseArgs_returned_code {w : World} {argv : List String} {code : Int}
    {log : List Event} (h : parseArgs w argv = .returned code log) : code = 1 := by
  have := scanInv_iter w argv (argv.length + 1)
  change ScanInv argv (parseArgs w argv) at this
  rw [h] at this
  exact this.1

theorem dispatch_help {w : World} {task : String} (st : State) (fuel : Nat)
    (h : task ∉ ["run", "interactive", "compile", "new", "test"]) :
    dispatch w fuel task st = some (1, st.log ++ [.define "__ARGS__" (.LIST st.args),
      .ProjectManager st.project_path] ++ helpText.map Event.cout) := by
  simp only [List.mem_cons, List.mem_singleton, List.not_mem_nil, or_false, not_or] at h
  obtain ⟨h1, h2, h3, h4, h5⟩ := h
  unfold dispatch State.dispatchLog
  by_cases hh : task = "help"
  · simp only [hh, if_true, printHelp]
  · simp only [hh, h1, h2, h3, if_false, tryProject, h4, h5, printHelp]

/-- C8, as amended: when the task token is absent, is `help`, or is any string other
than `run`, `interactive`, `compile`, `new` and `test`, `main` returns 1 for every
sequence of further tokens; when there is no task token, and whenever the flag scan
of the further tokens ends without an argument error, the help text is what is
written on standard output. -/
theorem C8_help_or_unknown_task (w : World) (fuel : Nat) (argv : List String)
    (htask : argv.length < 2 ∨ taskOf argv ∉ ["run", "interactive", "compile", "new", "test"]) :
    (∃ log, main w fuel argv = some (1, log)) ∧
    (argv.length < 2 → ∃ log, main w fuel argv = some (1, log) ∧ stdout log = helpText) ∧
    (∀ st, parseArgs w argv = .done st →
      ∃ log, main w fuel argv = some (1, log) ∧ stdout log = helpText) := by
  have hnot : taskOf argv ∉ ["run", "interactive", "compile", "new", "test"] := by
    rcases htask with h | h
    · have : taskOf argv = "help" := by unfold taskOf; rw [if_neg (by omega)]
      rw [this]; decide
    · exact h
  have hdone : ∀ st, parseArgs w argv = .done st →
      ∃ log, main w fuel argv = some (1, log) ∧ stdout log = helpText := by
    intro st hst
    refine ⟨_, by rw [main_of_done hst, dispatch_help st fuel hnot], ?_⟩
    rw [stdout_append, stdout_append, stdout_config (done_log_config hst), stdout_helpText]
    rfl
  refine ⟨?_, ?_, hdone⟩
  · rcases parseArgs_finished w argv with ⟨st, hst⟩ | ⟨code, log, hret⟩
    · obtain ⟨log, hlog, _⟩ := hdone st hst
      exact ⟨log, hlog⟩
    · have hc := parseArgs_returned_code hret
      subst hc
      exact ⟨log, main_of_returned hret fuel⟩
  · intro hlen
    exact hdone _ (parseArgs_no_tokens w argv (by omega))

/-- C8 at `srclang frobnicate -debug f.src x`: an unknown task with tokens that parse. -/
theorem C8_help_or_unknown_task_witness :
    ∃ log, main quietWorld 0 ["srclang", "frobnicate", "-debug", "f.src", "x"] = some (1, log) ∧
      stdout log = helpText :=
  (C8_help_or_unknown_task quietWorld 0 ["srclang", "frobnicate", "-debug", "f.src", "x"]
    (Or.inr (by decide))).2.2
    { filename := some "f.src", output := none, project_path := "/home/u", args := ["x"],
      log := [.setOption "DEBUG"] } (by decide)

/-- C8 as stated fails at `srclang help -bogus`: the task is `help`, the exit code is
1, but nothing at all is written on standard output; the invalid-flag message goes
to the diagnostic stream and `main` returns before the help is printed. -/
theorem C8_counterexample :
    taskOf ["srclang", "help", "-bogus"] = "help" ∧
    main quietWorld 0 ["srclang", "help", "-bogus"] =
      some (1, [.cerr "ERROR: invalid flag \x27-bogus\x27\n"]) ∧
    stdout [.cerr "ERROR: invalid flag \x27-bogus\x27\n"] = [] ∧
    ¬ ∃ log, main quietWorld 0 ["srclang", "help", "-bogus"] = some (1, log) ∧
      stdout log = helpText := by
  refine ⟨by decide, by decide, by decide, ?_⟩
  rintro ⟨log, hlog, hout⟩
  have hm : main quietWorld 0 ["srclang", "help", "-bogus"] =
      some (1, [.cerr "ERROR: invalid flag \x27-bogus\x27\n"]) := by decide
  rw [hm] at hlog
  cases hlog
  exact absurd hout (by decide)

theorem executeCalls_append (a b : List Event) :
    executeCalls (a ++ b) = executeCalls a ++ executeCalls b :=
  List.filterMap_append _ _ _

theorem executeCalls_config {log : List Event} (h : ∀ e ∈ log, e.isConfig = true) :
    executeCalls log = [] := by
  induction log with
  | nil => rfl
  | cons e log ih =>
    have he := h e (List.mem_cons_self e log)
    have ht := ih (fun x hx => h x (List.mem_cons_of_mem e hx))
    cases e <;> first | exact ht | exact Bool.noConfusion he

/-- C9: for task `run`, after a successful scan that captured the filename `f`,
`execute` is called exactly once, on `f`.  When the value it returns is tagged
`Error`, `main` returns 1 and the diagnostic stream receives the payload of the error
as one line, and nothing else; otherwise `main` returns 0 and the diagnostic stream
receives nothing.  So the exit code is 1 exactly when the value is tagged `Error`. -/
theorem C9_run_exit_code (w : World) (fuel : Nat) (argv : List String) (st : State)
    (f : String) (htask : taskOf argv = "run")
    (hparse : parseArgs w argv = .done st) (hf : st.filename = some f) :
    ∃ code log, main w fuel argv = some (code, log) ∧
      executeCalls log = [f] ∧
      (code = 1 ↔ (w.execute st.dispatchLog f).type = ValueType.Error) ∧
      ((w.execute st.dispatchLog f).type = ValueType.Error →
        code = 1 ∧ stderr log = [(w.execute st.dispatchLog f).pointer ++ "\n"]) ∧
      ((w.execute st.dispatchLog f).type ≠ ValueType.Error → code = 0 ∧ stderr log = []) := by
  have hcfg := done_log_config hparse
  have hmain : main w fuel argv = some (run w st.dispatchLog (some f)) := by
    rw [main_of_done hparse]
    unfold dispatch
    rw [htask, hf]
    rfl
  have hx : executeCalls st.dispatchLog = [] := by
    unfold State.dispatchLog
    rw [executeCalls_append, executeCalls_config hcfg]; rfl
  have he : stderr st.dispatchLog = [] := by
    unfold State.dispatchLog
    rw [stderr_append, stderr_config hcfg]; rfl
  by_cases hty : (w.execute st.dispatchLog f).type = ValueType.Error
  · refine ⟨1, st.dispatchLog ++ [.execute f,
      .cerr ((w.execute st.dispatchLog f).pointer ++ "\n")], ?_, ?_, ?_, ?_, ?_⟩
    · rw [hmain]; simp only [run, if_pos hty]
    · rw [executeCalls_append, hx]; rfl
    · exact ⟨fun _ => hty, fun _ => rfl⟩
    · intro _; refine ⟨rfl, ?_⟩
      rw [stderr_append, he]; rfl
    · intro h; exact absurd hty h
  · refine ⟨0, st.dispatchLog ++ [.execute f], ?_, ?_, ?_, ?_, ?_⟩
    · rw [hmain]; simp only [run, if_neg hty]
    · rw [executeCalls_append, hx]; rfl
    · exact ⟨fun h => absurd h (by decide), fun h => absurd h hty⟩
    · intro h; exact absurd h hty
    · intro _; refine ⟨rfl, ?_⟩
      rw [stderr_append, he]; rfl

/-- C9 at `srclang run -debug f.src` with a runtime whose `execute` returns an error
whose payload is `boom`. -/
theorem C9_run_exit_code_witness :
    ∃ code log, main failingWorld 0 ["srclang", "run", "-debug", "f.src"] = some (code, log) ∧
      executeCalls log = ["f.src"] ∧
      (code = 1 ↔ True) ∧ (True → code = 1 ∧ stderr log = ["boom\n"]) ∧
      (¬ True → code = 0 ∧ stderr log = []) := by
  have h := C9_run_exit_code failingWorld 0 ["srclang", "run", "-debug", "f.src"]
    { filename := some "f.src", output := none, project_path := "/home/u", args := [],
      log := [.setOption "DEBUG"] } "f.src" (by decide) (by decide) rfl
  obtain ⟨code, log, h1, h2, h3, h4, h5⟩ := h
  exact ⟨code, log, h1, h2, ⟨fun _ => True.intro, fun _ => h3.mpr rfl⟩, fun _ => h4 rfl,
    fun hn => absurd True.intro hn⟩

/-! ## The output path of `compile` -/

theorem outputInv_step (argv : List String) (c : Config) (h : OutputInv argv c) :
    OutputInv argv (step argv c) := by
  cases c with
  | running i st =>
    obtain ⟨seen, hseen, h⟩ := h
    by_cases hi : i < argv.length
    · rw [step_running st hi]
      refine body_elim (P := OutputInv argv) argv i st hi ?_ ?_ ?_ ?_ ?_ ?_ ?_ ?_ ?_ ?_ ?_
      · intro tok _ hne
        rw [if_neg hne] at h
        exact ⟨seen, hseen, by simpa [hne] using h⟩
      · intro tok htok hf hd
        rw [if_pos hf, drop_eq_cons htok, recognisedValues_file _ _ _ hd] at h
        exact ⟨seen, hseen, by simpa using h⟩
      · intro htok hf
        rw [if_pos hf, drop_eq_cons htok,
          recognisedValues_plain _ _ _ (by decide) (by decide)] at h
        exact ⟨seen, hseen, by simpa [State.emit, hf] using h⟩
      · intro htok hf
        rw [if_pos hf, drop_eq_cons htok,
          recognisedValues_plain _ _ _ (by decide) (by decide)] at h
        exact ⟨seen, hseen, by simpa [State.emit, hf] using h⟩
      · intros; exact True.intro
      · intro v htok hv hf _
        rw [if_pos hf, drop_eq_cons_cons htok hv,
          recognisedValues_value _ _ _ _ (by decide) (by decide)] at h
        exact ⟨seen, hseen, by simpa [State.emit, hf] using h⟩
      · intro v htok hv hf _
        rw [if_pos hf, drop_eq_cons_cons htok hv,
          recognisedValues_value _ _ _ _ (by decide) (by decide)] at h
        exact ⟨seen, hseen, by simpa [State.emit, hf] using h⟩
      · intro v htok hv hf
        rw [if_pos hf, drop_eq_cons_cons htok hv,
          recognisedValues_value _ _ _ _ (by decide) (by decide)] at h
        exact ⟨seen, hseen, by simpa [State.emit, hf] using h⟩
      · intro v htok hv hf
        rw [if_pos hf, drop_eq_cons_cons htok hv,
          recognisedValues_value _ _ _ _ (by decide) (by decide)] at h
        refine ⟨seen ++ [v], by simp, ?_⟩
        simpa [hf] using h
      · intro v htok hv hf
        rw [if_pos hf, drop_eq_cons_cons htok hv,
          recognisedValues_value _ _ _ _ (by decide) (by decide)] at h
        exact ⟨seen, hseen, by simpa [State.emit, hf] using h⟩
      · intros; exact True.intro
    · rw [step_exit st hi]
      show st.output = _
      rw [List.drop_of_length_le (by omega)] at h
      have h' : seen = recognisedValues "-o" (argv.drop 2) := by
        simpa [recognisedValues] using h
      rw [← h', hseen]
  | done st => exact h
  | returned code log => exact h
  | fault => exact h

theorem outputInv_iter (w : World) (argv : List String) (n : Nat) :
    OutputInv argv (iter argv n (.running 2 (initial w))) :=
  iter_invariant argv (outputInv_step argv) n _
    ⟨[], rfl, by simp [initial]⟩

/-- C10: for task `compile`, once a filename `f` has been captured (the scan then
always succeeds), `compile` is called once, on `f` and the output path, and `main`
returns the integer that call returns.  The output path is the value that follows the
last `-o` flag recognised before the filename, and is absent when there is none; a
`-o` after the filename is a positional argument and does not set it. -/
theorem C10_compile_exit_code (w : World) (fuel : Nat) (argv : List String) (i : Nat)
    (st : State) (f : String) (htask : taskOf argv = "compile")
    (hr : Reaches w argv i st) (hf : st.filename = some f) :
    ∃ log0 out,
      main w fuel argv = some (w.compile log0 f out, log0 ++ [.compile f out]) ∧
      log0 = st.log ++ [.define "__ARGS__" (.LIST (st.args ++ argv.drop i)),
        .ProjectManager st.project_path] ∧
      (∀ e ∈ log0, e.isOperation = false) ∧
      out = st.output ∧
      out = (recognisedValues "-o" (argv.drop 2)).getLast? := by
  have hparse : parseArgs w argv = .done { st with args := st.args ++ argv.drop i } := by
    rw [parseArgs_of_reaches hr]
    exact tail_loop argv f argv.length i st hf (by omega)
  have hout := outputInv_iter w argv (argv.length + 1)
  change OutputInv argv (parseArgs w argv) at hout
  rw [hparse] at hout
  have hcfg := done_log_config hparse
  refine ⟨_, st.output, ?_, rfl, ?_, rfl, hout⟩
  · rw [main_of_done hparse]
    unfold dispatch State.dispatchLog
    rw [htask]
    simp only [compile, hf]
    rfl
  · intro e he
    rcases List.mem_append.mp he with he | he
    · exact config_not_operation (hcfg e he)
    · simp only [List.mem_cons, List.mem_singleton, List.not_mem_nil, or_false] at he
      rcases he with rfl | rfl <;> rfl

/-- C10 at `srclang compile -o a -o b f.src -o c` with a runtime whose `compile`
returns 3: the exit code is 3 and the output path is `b`. -/
theorem C10_compile_exit_code_witness :
    main failingWorld 0 ["srclang", "compile", "-o", "a", "-o", "b", "f.src", "-o", "c"] =
      some (3, [.define "__ARGS__" (.LIST ["-o", "c"]), .ProjectManager "/home/u",
        .compile "f.src" (some "b")]) ∧
    some "b" = (recognisedValues "-o" ["-o", "a", "-o", "b", "f.src", "-o", "c"]).getLast? := by
  obtain ⟨log0, out, h1, h2, _, h4, h5⟩ := C10_compile_exit_code failingWorld 0
    ["srclang", "compile", "-o", "a", "-o", "b", "f.src", "-o", "c"] 7
    { filename := some "f.src", output := some "b", project_path := "/home/u", args := [],
      log := [] } "f.src" (by decide) ⟨3, by decide⟩ rfl
  subst h2 h4
  exact ⟨h1, h5⟩

/-! ## The interactive loop -/

/-- More fuel does not change what the loop returns. -/
theorem interactiveLoop_mono (w : World) :
    ∀ fuel input log r, interactiveLoop w fuel input log = some r →
      ∀ k, interactiveLoop w (fuel + k) input log = some r := by
  intro fuel
  induction fuel with
  | zero => intro input log r h; exact Option.noConfusion h
  | succ fuel ih =>
    intro input log r h k
    rw [Nat.add_right_comm]
    cases input with
    | nil => exact ih _ _ _ h k
    | cons line rest =>
      simp only [interactiveLoop] at h ⊢
      by_cases he : line = ".exit"
      · rw [if_pos he] at h ⊢; exact h
      · rw [if_neg he] at h ⊢; exact ih _ _ _ h k

theorem interactiveLoop_exit (w : World) (fuel : Nat) (rest : List String) (log : List Event) :
    interactiveLoop w (fuel + 1) (".exit" :: rest) log =
      some (0, log ++ [.cout "> "] ++ [.getline (some ".exit")]) := by
  simp only [interactiveLoop, if_true]

theorem interactiveLoop_line (w : World) (fuel : Nat) (line : String) (rest : List String)
    (log : List Event) (h : line ≠ ".exit") :
    interactiveLoop w (fuel + 1) (line :: rest) log =
      interactiveLoop w fuel rest (log ++ [.cout "> "] ++ [.getline (some line)] ++
        [.executeString line "<script>",
         .cout (":: " ++ (w.executeString (log ++ [.cout "> "] ++ [.getline (some line)])
            line "<script>").text ++ "\n")]) := by
  simp only [interactiveLoop, if_neg h]

theorem interactiveLoop_transcript (w : World) :
    ∀ lines rest log, (∀ l ∈ lines, l ≠ ".exit") →
      interactiveLoop w (lines.length + 1) (lines ++ ".exit" :: rest) log =
        some (0, transcript w lines log ++ [.cout "> "] ++ [.getline (some ".exit")]) := by
  intro lines
  induction lines with
  | nil => intro rest log _; exact interactiveLoop_exit w 0 rest log
  | cons line lines ih =>
    intro rest log h
    have hl : line ≠ ".exit" := h line (List.mem_cons_self line lines)
    have ht : ∀ l ∈ lines, l ≠ ".exit" := fun l hl => h l (List.mem_cons_of_mem line hl)
    show interactiveLoop w (lines.length + 1 + 1) (line :: (lines ++ ".exit" :: rest)) log = _
    rw [interactiveLoop_line w _ line _ log hl, ih rest _ ht]
    rfl

theorem executeStringCalls_append (a b : List Event) :
    executeStringCalls (a ++ b) = executeStringCalls a ++ executeStringCalls b :=
  List.filterMap_append _ _ _

theorem getlineCalls_append (a b : List Event) :
    getlineCalls (a ++ b) = getlineCalls a ++ getlineCalls b :=
  List.filterMap_append _ _ _

theorem executeStringCalls_transcript (w : World) :
    ∀ lines log, executeStringCalls (transcript w lines log) =
      executeStringCalls log ++ lines.map fun l => (l, "<script>") := by
  intro lines
  induction lines with
  | nil => intro log; simp [transcript]
  | cons line lines ih =>
    intro log
    simp only [transcript]
    rw [ih]
    simp [executeStringCalls_append, executeStringCalls]

theorem getlineCalls_transcript (w : World) :
    ∀ lines log, getlineCalls (transcript w lines log) =
      getlineCalls log ++ lines.map some := by
  intro lines
  induction lines with
  | nil => intro log; simp [transcript]
  | cons line lines ih =>
    intro log
    simp only [transcript]
    rw [ih]
    simp [getlineCalls_append, getlineCalls]

/-- C11: when standard input holds lines `l1 .. ln`, none of them `.exit`, then the
line `.exit` (and anything after it), the interactive loop returns 0 as soon as it is
given `n + 1` iterations.  Its log is the banner followed, for each line in order, by
the prompt `> `, the read, the call of execute-string on the line with the label
`<script>` and the text of the result printed after `:: `, and then by a last prompt
and the read of `.exit`.  So execute-string is called exactly `n` times, on
`l1 .. ln` in order, and the reads are those of `l1 .. ln` and `.exit`: nothing after
the `.exit` line is read or executed. -/
theorem C11_interactive_session (w : World) (lines rest : List String) (log : List Event)
    (k : Nat) (hstdin : w.stdin = lines ++ ".exit" :: rest)
    (hlines : ∀ l ∈ lines, l ≠ ".exit") :
    interactive w (lines.length + 1 + k) log =
      some (0, transcript w lines (log ++ [.cout (LOGO ++ "\n")]) ++
        [.cout "> "] ++ [.getline (some ".exit")]) ∧
    executeStringCalls (transcript w lines (log ++ [.cout (LOGO ++ "\n")]) ++
        [.cout "> "] ++ [.getline (some ".exit")]) =
      executeStringCalls log ++ lines.map (fun l => (l, "<script>")) ∧
    getlineCalls (transcript w lines (log ++ [.cout (LOGO ++ "\n")]) ++
        [.cout "> "] ++ [.getline (some ".exit")]) =
      getlineCalls log ++ lines.map some ++ [some ".exit"] := by
  refine ⟨?_, ?_, ?_⟩
  · unfold interactive
    rw [hstdin]
    exact interactiveLoop_mono w _ _ _ _ (interactiveLoop_transcript w lines rest _ hlines) k
  · rw [executeStringCalls_append, executeStringCalls_append, executeStringCalls_transcript,
      executeStringCalls_append]
    simp [executeStringCalls]
  · rw [getlineCalls_append, getlineCalls_append, getlineCalls_transcript,
      getlineCalls_append]
    simp [getlineCalls]

/-- C11 at the input `1 + 1`, `.exit`, `2 + 2`, through `main`: one call, exit code 0,
and the third line is never read. -/
theorem C11_interactive_session_witness :
    main echoWorld 2 ["srclang", "interactive"] =
      some (0, [.define "__ARGS__" (.LIST []), .ProjectManager "/home/u",
        .cout (LOGO ++ "\n"), .cout "> ", .getline (some "1 + 1"),
        .executeString "1 + 1" "<script>", .cout ":: 1 + 1\n", .cout "> ",
        .getline (some ".exit")]) :=
  (C11_interactive_session echoWorld ["1 + 1"] ["2 + 2"]
    [.define "__ARGS__" (.LIST []), .ProjectManager "/home/u"] 0 rfl (by decide)).1

/-! ## The tasks `new` and `test` -/

theorem stderr_dispatchLog {w : World} {argv : List String} {st : State}
    (h : parseArgs w argv = .done st) : stderr st.dispatchLog = [] := by
  unfold State.dispatchLog
  rw [stderr_append, stderr_config (done_log_config h)]; rfl

theorem stdout_dispatchLog {w : World} {argv : List String} {st : State}
    (h : parseArgs w argv = .done st) : stdout st.dispatchLog = [] := by
  unfold State.dispatchLog
  rw [stdout_append, stdout_config (done_log_config h)]; rfl

theorem createCalls_append (a b : List Event) :
    createCalls (a ++ b) = createCalls a ++ createCalls b :=
  List.filterMap_append _ _ _

theorem createCalls_config {log : List Event} (h : ∀ e ∈ log, e.isConfig = true) :
    createCalls log = [] := by
  induction log with
  | nil => rfl
  | cons e log ih =>
    have he := h e (List.mem_cons_self e log)
    have ht := ih (fun x hx => h x (List.mem_cons_of_mem e hx))
    cases e <;> first | exact ht | exact Bool.noConfusion he

theorem createCalls_dispatchLog {w : World} {argv : List String} {st : State}
    (h : parseArgs w argv = .done st) : createCalls st.dispatchLog = [] := by
  unfold State.dispatchLog
  rw [createCalls_append, createCalls_config (done_log_config h)]; rfl

theorem stderr_helpText : stderr (helpText.map Event.cout) = [] := by decide

theorem createCalls_helpText : createCalls (helpText.map Event.cout) = [] := by decide

/-- What `main` does for a task that is none of `help`, `run`, `interactive` and
`compile`: the `try` block, then the `catch` clause or `printHelp`. -/
theorem dispatch_project {w : World} {task : String} (st : State) (fuel : Nat)
    (h : task ∉ ["help", "run", "interactive", "compile"]) :
    dispatch w fuel task st =
      match tryProject w task st.args st.dispatchLog with
      | (log, some what) => some (1, log ++ [.cerr ("ERROR: " ++ what ++ "\n")])
      | (log, none) => some (printHelp log) := by
  simp only [List.mem_cons, List.mem_singleton, List.not_mem_nil, or_false, not_or] at h
  obtain ⟨h1, h2, h3, h4⟩ := h
  unfold dispatch
  simp only [h1, h2, h3, h4, if_false]

/-- C12: for task `new`, after a successful scan that leaves the positional list
empty, `main` returns 1, the diagnostic stream receives the one line
`ERROR: no project name specified`, and `create` is not called.  This includes every
command line with exactly one token after the task that does not start with `-`:
that token is captured as the filename and the positional list stays empty. -/
theorem C12_new_without_name (w : World) (fuel : Nat) (argv : List String) (st : State)
    (htask : taskOf argv = "new") (hparse : parseArgs w argv = .done st)
    (hargs : st.args = []) :
    main w fuel argv =
      some (1, st.dispatchLog ++ [.cerr "ERROR: no project name specified\n"]) ∧
    stderr (st.dispatchLog ++ [.cerr "ERROR: no project name specified\n"]) =
      ["ERROR: no project name specified\n"] ∧
    createCalls (st.dispatchLog ++ [.cerr "ERROR: no project name specified\n"]) = [] ∧
    (∀ prog name, front name ≠ '-' →
      parseArgs w [prog, "new", name] = .done { initial w with filename := some name }) := by
  refine ⟨?_, ?_, ?_, ?_⟩
  · rw [main_of_done hparse, htask, dispatch_project st fuel (by decide)]
    simp only [tryProject, if_true, hargs]
    rfl
  · rw [stderr_append, stderr_dispatchLog hparse]; rfl
  · rw [createCalls_append, createCalls_dispatchLog hparse]; rfl
  · intro prog name hname
    have hs : step [prog, "new", name] (.running 2 (initial w)) =
        .running 3 { initial w with filename := some name } := by
      rw [step_running _ (show 2 < [prog, "new", name].length from Nat.lt_succ_self 2)]
      exact body_file rfl rfl hname
    show step _ (step _ (step _ (step _ (.running 2 (initial w))))) = _
    rw [hs]
    rfl

/-- C12 at `srclang new myproj`. -/
theorem C12_new_without_name_witness :
    main quietWorld 0 ["srclang", "new", "myproj"] =
      some (1, [.define "__ARGS__" (.LIST []), .ProjectManager "/home/u",
        .cerr "ERROR: no project name specified\n"]) :=
  (C12_new_without_name quietWorld 0 ["srclang", "new", "myproj"]
    { filename := some "myproj", output := none, project_path := "/home/u", args := [],
      log := [] } (by decide) (by decide) rfl).1

/-- C13 does not hold of the code: on `srclang new myproj`, the invocation the usage
text documents as `new <name>`, the only token after the task is captured as the
filename, the positional list stays empty, and `main` reports
`no project name specified` and returns 1 without calling `create`.  The name is
taken from the first token after the filename: on `srclang new x myproj`, `create`
is called on `myproj`. -/
theorem C13_new_single_token_not_created (w : World) (fuel : Nat) :
    main w fuel ["srclang", "new", "myproj"] =
      some (1, [.define "__ARGS__" (.LIST []), .ProjectManager w.current_path,
        .cerr "ERROR: no project name specified\n"]) ∧
    createCalls [.define "__ARGS__" (.LIST []), .ProjectManager w.current_path,
        .cerr "ERROR: no project name specified\n"] = [] ∧
    ∃ log, main quietWorld fuel ["srclang", "new", "x", "myproj"] = some (1, log) ∧
      createCalls log = ["myproj"] := by
  refine ⟨rfl, rfl, _, rfl, by decide⟩

/-- C14: after a successful scan, for task `new` with a non-empty positional list and
for task `test`: when the project manager's operation throws with message `m`, the
diagnostic stream receives `ERROR: ` followed by `m`, nothing is written on standard
output (help is not printed) and `main` returns 1; when it does not throw, control
reaches the final `printHelp`: the help text is written on standard output, nothing
on the diagnostic stream, and `main` returns the exit code of help, 1. -/
theorem C14_project_failure_boundary (w : World) (fuel : Nat) (argv : List String)
    (st : State) (hparse : parseArgs w argv = .done st) :
    (taskOf argv = "new" → ∀ name more, st.args = name :: more →
      (∀ m, w.create st.dispatchLog name = some m →
        main w fuel argv =
          some (1, st.dispatchLog ++ [.create name] ++ [.cerr ("ERROR: " ++ m ++ "\n")]) ∧
        stderr (st.dispatchLog ++ [.create name] ++ [.cerr ("ERROR: " ++ m ++ "\n")]) =
          ["ERROR: " ++ m ++ "\n"] ∧
        stdout (st.dispatchLog ++ [.create name] ++ [.cerr ("ERROR: " ++ m ++ "\n")]) = []) ∧
      (w.create st.dispatchLog name = none →
        main w fuel argv =
          some (1, st.dispatchLog ++ [.create name] ++ helpText.map Event.cout) ∧
        stdout (st.dispatchLog ++ [.create name] ++ helpText.map Event.cout) = helpText ∧
        stderr (st.dispatchLog ++ [.create name] ++ helpText.map Event.cout) = [])) ∧
    (taskOf argv = "test" →
      (∀ m, w.test st.dispatchLog = some m →
        main w fuel argv =
          some (1, st.dispatchLog ++ [.test] ++ [.cerr ("ERROR: " ++ m ++ "\n")]) ∧
        stderr (st.dispatchLog ++ [.test] ++ [.cerr ("ERROR: " ++ m ++ "\n")]) =
          ["ERROR: " ++ m ++ "\n"] ∧
        stdout (st.dispatchLog ++ [.test] ++ [.cerr ("ERROR: " ++ m ++ "\n")]) = []) ∧
      (w.test st.dispatchLog = none →
        main w fuel argv = some (1, st.dispatchLog ++ [.test] ++ helpText.map Event.cout) ∧
        stdout (st.dispatchLog ++ [.test] ++ helpText.map Event.cout) = helpText ∧
        stderr (st.dispatchLog ++ [.test] ++ helpText.map Event.cout) = [])) := by
  have he := stderr_dispatchLog hparse
  have ho := stdout_dispatchLog hparse
  refine ⟨?_, ?_⟩
  · intro htask name more hargs
    have hd : dispatch w fuel "new" st = _ := dispatch_project st fuel (by decide)
    simp only [tryProject, if_true, hargs] at hd
    refine ⟨?_, ?_⟩
    · intro m hm
      rw [hm] at hd
      refine ⟨by rw [main_of_done hparse, htask, hd], ?_, ?_⟩
      · rw [stderr_append, stderr_append, he]; rfl
      · rw [stdout_append, stdout_append, ho]; rfl
    · intro hm
      rw [hm] at hd
      refine ⟨by rw [main_of_done hparse, htask, hd]; rfl, ?_, ?_⟩
      · rw [stdout_append, stdout_append, ho, stdout_helpText]; rfl
      · rw [stderr_append, stderr_append, he, stderr_helpText]; rfl
  · intro htask
    have hd : dispatch w fuel "test" st = _ := dispatch_project st fuel (by decide)
    simp only [tryProject, if_true, (by decide : ¬ "test" = "new"), if_false] at hd
    refine ⟨?_, ?_⟩
    · intro m hm
      rw [hm] at hd
      refine ⟨by rw [main_of_done hparse, htask, hd], ?_, ?_⟩
      · rw [stderr_append, stderr_append, he]; rfl
      · rw [stdout_append, stdout_append, ho]; rfl
    · intro hm
      rw [hm] at hd
      refine ⟨by rw [main_of_done hparse, htask, hd]; rfl, ?_, ?_⟩
      · rw [stdout_append, stdout_append, ho, stdout_helpText]; rfl
      · rw [stderr_append, stderr_append, he, stderr_helpText]; rfl

/-- C14 at `srclang new f.src myproj` with a project manager whose `create` throws
`cannot create`, and at `srclang test` with one whose `test` does not throw. -/
theorem C14_project_failure_boundary_witness :
    main failingWorld 0 ["srclang", "new", "f.src", "myproj"] =
      some (1, [.define "__ARGS__" (.LIST ["myproj"]), .ProjectManager "/home/u",
        .create "myproj", .cerr "ERROR: cannot create\n"]) ∧
    main quietWorld 0 ["srclang", "test"] =
      some (1, [.define "__ARGS__" (.LIST []), .ProjectManager "/home/u", .test] ++
        helpText.map Event.cout) :=
  ⟨((C14_project_failure_boundary failingWorld 0 ["srclang", "new", "f.src", "myproj"]
      { filename := some "f.src", output := none, project_path := "/home/u",
        args := ["myproj"], log := [] } (by decide)).1 (by decide) "myproj" [] rfl).1
      "cannot create" rfl |>.1,
   ((C14_project_failure_boundary quietWorld 0 ["srclang", "test"]
      { filename := none, output := none, project_path := "/home/u", args := [],
        log := [] } (by decide)).2 (by decide)).2 rfl |>.1⟩

/-! ## Exit codes -/

theorem interactiveLoop_code (w : World) :
    ∀ fuel input log r, interactiveLoop w fuel input log = some r → r.1 = 0 := by
  intro fuel
  induction fuel with
  | zero => intro input log r h; exact Option.noConfusion h
  | succ fuel ih =>
    intro input log r h
    cases input with
    | nil => exact ih _ _ _ h
    | cons line rest =>
      simp only [interactiveLoop] at h
      by_cases he : line = ".exit"
      · rw [if_pos he] at h; cases h; rfl
      · rw [if_neg he] at h; exact ih _ _ _ h

/-- C15, as amended: whenever `main` returns, its exit code is 0 or 1, except for
task `compile` with a captured filename, where it is the integer the runtime's
`compile` operation returns, whatever that integer is. -/
theorem C15_exit_codes (w : World) (fuel : Nat) (argv : List String) (r : Int × List Event)
    (h : main w fuel argv = some r) :
    r.1 = 0 ∨ r.1 = 1 ∨
    (taskOf argv = "compile" ∧ ∃ st f, parseArgs w argv = .done st ∧ st.filename = some f ∧
      r.1 = w.compile st.dispatchLog f st.output) := by
  rcases parseArgs_finished w argv with ⟨st, hst⟩ | ⟨code, log, hret⟩
  · rw [main_of_done hst] at h
    unfold dispatch at h
    dsimp only at h
    split at h
    · cases h; exact Or.inr (Or.inl rfl)
    split at h
    · cases h
      unfold run
      split
      · exact Or.inr (Or.inl rfl)
      · dsimp only
        split
        · exact Or.inr (Or.inl rfl)
        · exact Or.inl rfl
    split at h
    · exact Or.inl (interactiveLoop_code w _ _ _ _ h)
    split at h
    · rename_i htask
      cases h
      cases hf : st.filename with
      | none => exact Or.inr (Or.inl (by simp [compile]))
      | some f => exact Or.inr (Or.inr ⟨htask, st, f, hst, hf, by simp [compile]⟩)
    · generalize tryProject w (taskOf argv) st.args st.dispatchLog = tp at h
      obtain ⟨l, o⟩ := tp
      cases o with
      | none => cases h; exact Or.inr (Or.inl rfl)
      | some what => cases h; exact Or.inr (Or.inl rfl)
  · rw [main_of_returned hret] at h
    cases h
    exact Or.inr (Or.inl (parseArgs_returned_code hret))

/-- C15 at `srclang run f.src`: `main` returns 0. -/
theorem C15_exit_codes_witness :
    main quietWorld 0 ["srclang", "run", "f.src"] =
      some (0, [.define "__ARGS__" (.LIST []), .ProjectManager "/home/u",
        .execute "f.src"]) ∧
    ((0 : Int) = 0 ∨ (0 : Int) = 1 ∨
      (taskOf ["srclang", "run", "f.src"] = "compile" ∧ ∃ st f,
        parseArgs quietWorld ["srclang", "run", "f.src"] = .done st ∧ st.filename = some f ∧
        (0 : Int) = quietWorld.compile st.dispatchLog f st.output)) :=
  ⟨by decide, C15_exit_codes quietWorld 0 ["srclang", "run", "f.src"]
    (0, [.define "__ARGS__" (.LIST []), .ProjectManager "/home/u", .execute "f.src"])
    (by decide)⟩

/-- C15 as stated fails at `srclang compile f.src` with a runtime whose `compile`
returns 3: `main` returns 3, which is neither 0 nor 1. -/
theorem C15_counterexample :
    main failingWorld 0 ["srclang", "compile", "f.src"] =
      some (3, [.define "__ARGS__" (.LIST []), .ProjectManager "/home/u",
        .compile "f.src" none]) ∧
    ¬ ((3 : Int) = 0 ∨ (3 : Int) = 1) := by
  refine ⟨by decide, by decide⟩

/-- C16, as amended: a line terminates the interactive loop, with success and without
being passed to the execute operation, exactly when it equals `.exit` character for
character.  The line is not trimmed: any other line, such as ` .exit` or `.exit `, is
passed to the execute operation with the label `<script>`, its result is printed, and
the loop goes on with the next line. -/
theorem C16_exit_command_exact (w : World) (fuel : Nat) (line : String)
    (rest : List String) (log : List Event) :
    (line = ".exit" → interactiveLoop w (fuel + 1) (line :: rest) log =
      some (0, log ++ [.cout "> "] ++ [.getline (some line)])) ∧
    (line ≠ ".exit" → interactiveLoop w (fuel + 1) (line :: rest) log =
      interactiveLoop w fuel rest (log ++ [.cout "> "] ++ [.getline (some line)] ++
        [.executeString line "<script>",
         .cout (":: " ++ (w.executeString (log ++ [.cout "> "] ++ [.getline (some line)])
            line "<script>").text ++ "\n")])) ∧
    interactiveLoop w (fuel + 2) [" .exit", ".exit "] log =
      interactiveLoop w fuel [] (log ++ [.cout "> "] ++ [.getline (some " .exit")] ++
        [.executeString " .exit" "<script>",
         .cout (":: " ++ (w.executeString (log ++ [.cout "> "] ++ [.getline (some " .exit")])
            " .exit" "<script>").text ++ "\n")] ++ [.cout "> "] ++
        [.getline (some ".exit ")] ++
        [.executeString ".exit " "<script>",
         .cout (":: " ++ (w.executeString (log ++ [.cout "> "] ++
            [.getline (some " .exit")] ++
            [.executeString " .exit" "<script>",
             .cout (":: " ++ (w.executeString (log ++ [.cout "> "] ++
                [.getline (some " .exit")]) " .exit" "<script>").text ++ "\n")] ++
            [.cout "> "] ++ [.getline (some ".exit ")]) ".exit " "<script>").text ++
          "\n")]) := by
  refine ⟨?_, ?_, ?_⟩
  · intro h; subst h; exact interactiveLoop_exit w fuel rest log
  · intro h; exact interactiveLoop_line w fuel line rest log h
  · rw [interactiveLoop_line w (fuel + 1) " .exit" _ log (by decide),
      interactiveLoop_line w fuel ".exit " _ _ (by decide)]

/-- C16 at the lines `.exit` and ` .exit`, followed by `x`. -/
theorem C16_exit_command_exact_witness :
    interactiveLoop quietWorld 1 [".exit", "x"] [] =
      some (0, [.cout "> ", .getline (some ".exit")]) ∧
    interactiveLoop quietWorld 1 [" .exit", "x"] [] =
      interactiveLoop quietWorld 0 ["x"] [.cout "> ", .getline (some " .exit"),
        .executeString " .exit" "<script>", .cout ":: null\n"] :=
  ⟨(C16_exit_command_exact quietWorld 0 ".exit" ["x"] []).1 rfl,
   (C16_exit_command_exact quietWorld 0 " .exit" ["x"] []).2.1 (by decide)⟩

/-- C16 as stated fails on the input ` .exit`, `.exit `, `.exit`: the first two lines,
whose trimmed form is `.exit`, do not terminate the loop; each is read, passed to the
execute operation and answered, and the loop ends at the third line only. -/
theorem C16_counterexample :
    main paddedWorld 3 ["srclang", "interactive"] =
      some (0, [.define "__ARGS__" (.LIST []), .ProjectManager "/home/u",
        .cout (LOGO ++ "\n"),
        .cout "> ", .getline (some " .exit"), .executeString " .exit" "<script>",
        .cout ":: null\n",
        .cout "> ", .getline (some ".exit "), .executeString ".exit " "<script>",
        .cout ":: null\n",
        .cout "> ", .getline (some ".exit")]) ∧
    main paddedWorld 1 ["srclang", "interactive"] = none ∧
    main paddedWorld 2 ["srclang", "interactive"] = none := by
  refine ⟨rfl, rfl, rfl⟩

/-! ## Where argument errors are written -/

/-- C17 does not hold of the code: on `srclang run -o`, where the value of `-o` is
missing, the message of `CHECK_COUNT` is written on standard output and nothing is
written on the diagnostic stream.  The other argument error, an unknown flag, does
write to the diagnostic stream and nothing to standard output. -/
theorem C17_missing_value_on_stdout (w : World) (fuel : Nat) :
    main w fuel ["srclang", "run", "-o"] = some (1, [.cout "expecting 1 arguments\n"]) ∧
    stdout [.cout "expecting 1 arguments\n"] = ["expecting 1 arguments\n"] ∧
    stderr [.cout "expecting 1 arguments\n"] = [] ∧
    main w fuel ["srclang", "run", "-bogus"] =
      some (1, [.cerr "ERROR: invalid flag \x27-bogus\x27\n"]) ∧
    stdout [.cerr "ERROR: invalid flag \x27-bogus\x27\n"] = [] ∧
    stderr [.cerr "ERROR: invalid flag \x27-bogus\x27\n"] =
      ["ERROR: invalid flag \x27-bogus\x27\n"] := by
  refine ⟨rfl, rfl, rfl, rfl, rfl, rfl⟩

/-! ## Read failure in the interactive loop -/

theorem interactiveLoop_eof (w : World) :
    ∀ fuel log, interactiveLoop w fuel [] log = none := by
  intro fuel
  induction fuel with
  | zero => intro log; rfl
  | succ fuel ih => intro log; exact ih _

theorem interactiveLoop_never (w : World) :
    ∀ fuel input log, (∀ l ∈ input, l ≠ ".exit") → interactiveLoop w fuel input log = none := by
  intro fuel
  induction fuel with
  | zero => intro input log _; rfl
  | succ fuel ih =>
    intro input log h
    cases input with
    | nil => exact interactiveLoop_eof w (fuel + 1) log
    | cons line rest =>
      rw [interactiveLoop_line w fuel line rest log (h line (List.mem_cons_self line rest))]
      exact ih _ _ (fun l hl => h l (List.mem_cons_of_mem line hl))

theorem interactiveState_eof (w : World) :
    ∀ k log, interactiveState w k [] log = (none, [], log ++ idle k) := by
  intro k
  induction k with
  | zero => intro log; exact congrArg (fun l => (none, [], l)) (List.append_nil log).symm
  | succ k ih =>
    intro log
    show interactiveState w k [] (log ++ [.cout "> "] ++ [.getline none]) = _
    rw [ih, List.append_assoc, List.append_assoc]
    rfl

theorem interactiveState_lines (w : World) :
    ∀ input log k, (∀ l ∈ input, l ≠ ".exit") →
      interactiveState w (input.length + k) input log =
        interactiveState w k [] (transcript w input log) := by
  intro input
  induction input with
  | nil => intro log k _; rw [List.length_nil, Nat.zero_add]; rfl
  | cons line rest ih =>
    intro log k h
    have hl : line ≠ ".exit" := h line (List.mem_cons_self line rest)
    have ht : ∀ l ∈ rest, l ≠ ".exit" := fun l hl => h l (List.mem_cons_of_mem line hl)
    rw [List.length_cons, Nat.add_right_comm]
    simp only [interactiveState, if_neg hl]
    rw [ih _ k ht]
    rfl

theorem idle_succ (k : Nat) : idle (k + 1) = idle k ++ [.cout "> ", .getline none] := by
  induction k with
  | zero => rfl
  | succ k ih =>
    show [Event.cout "> ", .getline none] ++ idle (k + 1) =
      ([Event.cout "> ", .getline none] ++ idle k) ++ [.cout "> ", .getline none]
    rw [ih, List.append_assoc]

theorem executeStringCalls_idle (k : Nat) : executeStringCalls (idle k) = [] := by
  induction k with
  | zero => rfl
  | succ k ih =>
    show executeStringCalls ([Event.cout "> ", .getline none] ++ idle k) = []
    rw [executeStringCalls_append, ih]
    rfl

/-- C18: a failed read does not end the interactive loop.  When standard input is
finite and holds no line equal to `.exit`, the loop has not returned after any number
of iterations, and neither has `interactive`.  Once the lines have been consumed the
loop is still running with the input exhausted, and every further iteration adds to
the log the prompt and the failed read and nothing else, and leaves the loop running
with the input exhausted: the calls of the execute operation stay those made for the
lines, however many iterations follow. -/
theorem C18_read_failure_spins (w : World) (input : List String) (log : List Event)
    (hinput : ∀ l ∈ input, l ≠ ".exit") :
    (∀ fuel, interactiveLoop w fuel input log = none) ∧
    (w.stdin = input → ∀ fuel, interactive w fuel log = none) ∧
    (∀ k, interactiveState w (input.length + k) input log =
      (none, [], transcript w input log ++ idle k)) ∧
    (∀ k, interactiveState w (input.length + k + 1) input log =
      (none, [], (interactiveState w (input.length + k) input log).2.2 ++
        [.cout "> ", .getline none])) ∧
    (∀ k, executeStringCalls (interactiveState w (input.length + k) input log).2.2 =
      executeStringCalls log ++ input.map (fun l => (l, "<script>"))) ∧
    (∀ k, stdout (interactiveState w (input.length + k + 1) input log).2.2 =
      stdout (interactiveState w (input.length + k) input log).2.2 ++ ["> "]) ∧
    (∀ fuel, (interactiveState w fuel input log).1 = none) := by
  have hstate : ∀ k, interactiveState w (input.length + k) input log =
      (none, [], transcript w input log ++ idle k) := by
    intro k
    rw [interactiveState_lines w input log k hinput, interactiveState_eof]
  have hnext : ∀ k, interactiveState w (input.length + k + 1) input log =
      (none, [], (interactiveState w (input.length + k) input log).2.2 ++
        [.cout "> ", .getline none]) := by
    intro k
    rw [Nat.add_assoc, hstate (k + 1), hstate k, idle_succ, List.append_assoc]
  refine ⟨fun fuel => interactiveLoop_never w fuel input log hinput, ?_, hstate, hnext, ?_, ?_,
    ?_⟩
  · intro hstdin fuel
    unfold interactive
    rw [hstdin]
    exact interactiveLoop_never w fuel input _ hinput
  · intro k
    rw [hstate k]
    show executeStringCalls (transcript w input log ++ idle k) = _
    rw [executeStringCalls_append, executeStringCalls_transcript, executeStringCalls_idle,
      List.append_nil]
  · intro k
    rw [hnext k]
    show stdout (_ ++ [Event.cout "> ", .getline none]) = _
    rw [stdout_append]
    rfl
  · intro fuel
    have h := interactiveLoop_eq_state w fuel input log
    rw [interactiveLoop_never w fuel input log hinput] at h
    generalize interactiveState w fuel input log = s at h
    obtain ⟨c, i, l⟩ := s
    cases c with
    | none => rfl
    | some code => exact Option.noConfusion h

/-- C18 at the input ` .exit`, `x`: the loop has not returned after 1000 iterations;
after the two lines, three more iterations have added three prompts and three failed
reads, and the fourth adds one more of each. -/
theorem C18_read_failure_spins_witness :
    interactiveLoop quietWorld 1000 [" .exit", "x"] [] = none ∧
    interactiveState quietWorld 5 [" .exit", "x"] [] =
      (none, [], [.cout "> ", .getline (some " .exit"), .executeString " .exit" "<script>",
        .cout ":: null\n", .cout "> ", .getline (some "x"), .executeString "x" "<script>",
        .cout ":: null\n", .cout "> ", .getline none, .cout "> ", .getline none,
        .cout "> ", .getline none]) ∧
    interactiveState quietWorld 6 [" .exit", "x"] [] =
      (none, [], (interactiveState quietWorld 5 [" .exit", "x"] []).2.2 ++
        [.cout "> ", .getline none]) :=
  ⟨(C18_read_failure_spins quietWorld [" .exit", "x"] [] (by decide)).1 1000,
   (C18_read_failure_spins quietWorld [" .exit", "x"] [] (by decide)).2.2.1 3,
   (C18_read_failure_spins quietWorld [" .exit", "x"] [] (by decide)).2.2.2.1 3⟩

/-! ## The token after a flag that takes a value -/

theorem parseArgs_flag_value (w : World) (prog task flag t : String) (st : State)
    (h : body [prog, task, flag, t] 2 (initial w) = .running 4 st) :
    parseArgs w [prog, task, flag, t] = .done st := by
  show step _ (step _ (step _ (step _ (step _ (.running 2 (initial w)))))) = _
  rw [step_running _ (show 2 < [prog, task, flag, t].length from by simp), h,
    step_exit _ (show ¬ 4 < [prog, task, flag, t].length from by simp)]
  rfl

/-- C19: the token `t` that follows `-define`, `-search-path`, `-o` or `-project-path`
is taken whole as the value of the flag, whatever its shape (a leading `-` included):
the scan of the two tokens succeeds, no filename is captured, the positional list
stays empty, and the only change to the state is the record of `t` for that flag: a
search-path append of `t`, the output path `t`, the project path `t`, the define of
`t` to true when `t` holds no `=`, and otherwise the define of the part before the
first `=` to the part after it.  In general, a pass through the loop body at a flag
that takes a value moves `i` two places on, so that the value is never looked at as
a flag or as the filename. -/
theorem C19_flag_value_verbatim (w : World) (prog task t : String) :
    parseArgs w [prog, task, "-search-path", t] =
      .done { initial w with log := [.appendSearchPath t] } ∧
    parseArgs w [prog, task, "-o", t] = .done { initial w with output := some t } ∧
    parseArgs w [prog, task, "-project-path", t] =
      .done { initial w with project_path := t } ∧
    ('=' ∉ t.data → parseArgs w [prog, task, "-define", t] =
      .done { initial w with log := [.define t .TRUE] }) ∧
    ('=' ∈ t.data → ∃ key value, key ++ "=" ++ value = t ∧ '=' ∉ key.data ∧
      parseArgs w [prog, task, "-define", t] =
        .done { initial w with log := [.define key (.STRING value)] }) ∧
    (∀ argv i st flag, st.filename = none → flag ∈ valueFlags → argv[i]? = some flag →
      argv[i + 1]? = some t →
      ∃ st', step argv (.running i st) = .running (i + 2) st' ∧ st'.filename = none ∧
        st'.args = st.args) := by
  refine ⟨?_, ?_, ?_, ?_, ?_, ?_⟩
  · exact parseArgs_flag_value w prog task _ t _ rfl
  · exact parseArgs_flag_value w prog task _ t _ rfl
  · exact parseArgs_flag_value w prog task _ t _ rfl
  · intro he
    exact parseArgs_flag_value w prog task _ t _ (body_define_true rfl rfl rfl he)
  · intro he
    obtain ⟨h1, h2⟩ := split_at_indexOf '=' t.data he
    refine ⟨substr t 0 (t.data.indexOf '='), substrFrom t (t.data.indexOf '=' + 1), ?_, ?_,
      parseArgs_flag_value w prog task _ t _ (body_define_string rfl rfl rfl he)⟩
    · apply String.ext
      simp only [String.data_append, substr, substrFrom, List.drop_zero]
      rw [List.append_assoc]
      exact h1
    · simpa [substr] using h2
  · intro argv i st flag hf hflag htok hv
    have hi := lt_length_of_getElem? htok
    rw [step_running st hi]
    refine body_elim (P := fun c => ∃ st', c = .running (i + 2) st' ∧ st'.filename = none ∧
      st'.args = st.args) argv i st hi ?_ ?_ ?_ ?_ ?_ ?_ ?_ ?_ ?_ ?_ ?_
    · intro tok _ hne; exact absurd hf hne
    · intro tok htok' _ hd
      rw [htok] at htok'
      cases htok'
      simp only [valueFlags, List.mem_cons, List.mem_singleton, List.not_mem_nil,
        or_false] at hflag
      rcases hflag with h | h | h | h <;> subst h <;> exact absurd rfl hd
    · intro htok' _
      rw [htok] at htok'
      cases htok'
      exact absurd hflag (by decide)
    · intro htok' _
      rw [htok] at htok'
      cases htok'
      exact absurd hflag (by decide)
    · intro tok _ _ _ hlen
      have := lt_length_of_getElem? hv
      omega
    · intro v _ _ _ _; exact ⟨_, rfl, hf, rfl⟩
    · intro v _ _ _ _; exact ⟨_, rfl, hf, rfl⟩
    · intro v _ _ _; exact ⟨_, rfl, hf, rfl⟩
    · intro v _ _ _; exact ⟨_, rfl, hf, rfl⟩
    · intro v _ _ _; exact ⟨_, rfl, hf, rfl⟩
    · intro name htok' _ hname
      rw [htok] at htok'
      cases htok'
      simp only [valueFlags, List.mem_cons, List.mem_singleton, List.not_mem_nil,
        or_false] at hflag
      have hflag' : name ∈ flagNames := by
        rcases hflag with h | h | h | h
        · have : name = "define" := by rw [← advance_dash name, h]; rfl
          rw [this]; decide
        · have : name = "search-path" := by rw [← advance_dash name, h]; rfl
          rw [this]; decide
        · have : name = "o" := by rw [← advance_dash name, h]; rfl
          rw [this]; decide
        · have : name = "project-path" := by rw [← advance_dash name, h]; rfl
          rw [this]; decide
      exact absurd hflag' hname

/-- C19 at `srclang compile -o -debug`, with the general clause at
`srclang run -search-path -bogus f.src`. -/
theorem C19_flag_value_verbatim_witness :
    parseArgs quietWorld ["srclang", "compile", "-o", "-debug"] =
      .done { filename := none, output := some "-debug", project_path := "/home/u",
              args := [], log := [] } ∧
    ∃ st', step ["srclang", "run", "-search-path", "-bogus", "f.src"]
        (.running 2 (initial quietWorld)) = .running 4 st' ∧ st'.filename = none ∧
      st'.args = [] :=
  ⟨(C19_flag_value_verbatim quietWorld "srclang" "compile" "-debug").2.1,
   (C19_flag_value_verbatim quietWorld "srclang" "run" "-bogus").2.2.2.2.2
     ["srclang", "run", "-search-path", "-bogus", "f.src"] 2 (initial quietWorld)
     "-search-path" rfl (by decide) rfl rfl⟩

end Srclang
